import Mathlib

/-! # geom: coordinate transform pipeline, MultiPoint and tag statistics

A shallow embedding of `proj/transform.go` and `multipoint.go`, and of the
tag-statistics operations exercised by `encoding/osm/extract_test.go`.

Conventions of the embedding.

* `float64` is an arbitrary carrier `F` with `+ - * /`, a zero and a two.  Nothing
  is assumed about these operations unless a theorem says so, so the structural
  theorems hold for IEEE arithmetic as well as for exact arithmetic.
* Go functions that return `(values, error)` and whose values are dropped by the
  caller on error are `Except`-valued.
* The collaborators that `transform.go` calls but does not define (`Parse`,
  `SR.TransformFuncs`, `datumTransform`, `adjust_axis`) and the constants it uses
  but does not define (`pjd3Param`, `pjd7Param`, `deg2rad`, `r2d`) are the fields
  of an environment `Env`.
* Every call of a collaborator is recorded, in order, in a trace of `Call`s.
* A Go slice is a `List`; an index out of range is the outcome `panic`.
* The function value returned by `NewTransformFunc` is a closure; its captured
  variables are explicit state, and an invocation returns the closure as it
  leaves it.
* The pivot recursion is bounded by a fuel argument; the outcome `outOfFuel`
  stands for a recursion that does not end.
-/

namespace proj

/-- A Go `error` value. -/
abbrev Err := String

/-- The `datum` record of a spatial reference.  `transform.go` reads only
`datum_type`; `rest` stands for every field it never reads. -/
structure datum where
  datum_type : Int
  rest : Nat
deriving DecidableEq, Repr

/-- The spatial reference `SR`, with the fields `transform.go` reads; `rest`
stands for every field it never reads. -/
structure SR (F : Type) where
  Name : String
  DatumCode : String
  Axis : String
  ToMeter : F
  FromGreenwich : F
  datum : datum
  rest : Nat
deriving DecidableEq, Repr

deriving instance DecidableEq for Except

/-- The Go type `TransformFunc` of the projection functions handed out by
`SR.TransformFuncs`: `func(x, y float64) (float64, float64, error)`. -/
abbrev TransformFunc (F : Type) := F → F → Except Err (F × F)

/-- What `adjust_axis(crs, denorm, point)` does: `written i` is the content of
`point[i]` after the call (the callee shares the backing array of the slice but
cannot change the caller's slice header), `ret` is the returned slice or error. -/
structure AxisResult (F : Type) where
  written : Nat → F
  ret : Except Err (List F)

/-- The collaborators and constants of package `proj` that `transform.go` uses
and does not define. -/
structure Env (F : Type) where
  Parse : String → Except Err (SR F)
  TransformFuncs : SR F → Except Err (TransformFunc F × TransformFunc F)
  datumTransform : datum → datum → F → F → F → Except Err (F × F × F)
  adjust_axis : SR F → Bool → List F → AxisResult F
  pjd3Param : Int
  pjd7Param : Int
  deg2rad : F
  r2d : F
  NaN : F

/-- One call made by the transform function, with its arguments.  `forward sr`
and `inverse sr` are calls of the first and second function of
`sr.TransformFuncs()`; `nested source dest x y` is the call `t(point[0], point[1])`
of the transform built by `source.NewTransformFunc(dest)` at line 22. -/
inductive Call (F : Type) where
  | Parse (name : String)
  | nested (source dest : SR F) (x y : F)
  | TransformFuncs (sr : SR F)
  | adjust_axis (sr : SR F) (denorm : Bool) (point : List F)
  | inverse (sr : SR F) (x y : F)
  | datumTransform (src dst : datum) (x y z : F)
  | forward (sr : SR F) (x y : F)
deriving DecidableEq, Repr

/-- How one invocation of the transform function ends: it returns the triple
`(x, y, err)`, it panics on an index out of range, or the recursion budget of the
embedding is used up (which stands for a pivot recursion that does not end). -/
inductive Outcome (F : Type) where
  | ret (x y : F) (err : Option Err)
  | panic
  | outOfFuel
deriving DecidableEq, Repr

/-- The calls made by one invocation, in order, and how it ended. -/
structure Run (F : Type) where
  trace : List (Call F)
  outcome : Outcome F
deriving DecidableEq, Repr

/-- The function value returned by `NewTransformFunc`: a closure over the
variables `source` and `dest`.  Line 30 assigns to the captured `source`, so the
captured variables are the state of the closure. -/
structure Closure (F : Type) where
  source : SR F
  dest : SR F
deriving DecidableEq, Repr

section code

variable {F : Type}

/-- Lines 5-7. -/
def checkNotWGS (E : Env F) (source dest : SR F) : Bool :=
  (source.datum.datum_type == E.pjd3Param || source.datum.datum_type == E.pjd7Param)
    && dest.DatumCode != "WGS84"

/-- Lines 11 and 99: `NewTransformFunc` builds the closure and returns it with a
nil error. -/
def NewTransformFunc (source dest : SR F) : Closure F × Option Err :=
  (⟨source, dest⟩, none)

/-- The effect of a callee writing into the elements of the caller's slice. -/
def overwrite (point : List F) (written : Nat → F) : List F :=
  (List.range point.length).map written

variable [Add F] [Sub F] [Mul F] [Div F] [Zero F] [OfNat F 2]

/-- Line 98: `return point[0], point[1], nil`. -/
def returnPoint (tr : List (Call F)) (point : List F) : Run F :=
  match point with
  | r0 :: r1 :: _ => ⟨tr, .ret r0 r1 none⟩
  | _ => ⟨tr, .panic⟩

/-- Lines 91-98: the axis adjustment of the destination, whose returned slice
replaces `point`, and the final return. -/
def destAxis (E : Env F) (dest : SR F) (tr : List (Call F)) (point : List F) : Run F :=
  if dest.Axis ≠ "enu" then
    match (E.adjust_axis dest true point).ret with
    | .error err => ⟨tr ++ [.adjust_axis dest true point], .ret E.NaN E.NaN (some err)⟩
    | .ok adjusted => returnPoint (tr ++ [.adjust_axis dest true point]) adjusted
  else returnPoint tr point

/-- Lines 78-98: the destination step, then the destination axis adjustment and
the return.  `destForward` is the function held by the variable of that name and
`owner` the spatial reference whose `TransformFuncs` supplied it; `tr` is the
trace so far and `point` the working slice after line 76. -/
def destStep (E : Env F) (dest : SR F) (destForward : TransformFunc F) (owner : SR F)
    (tr : List (Call F)) (point : List F) : Run F :=
  match point with
  | p0 :: p1 :: more =>
    if dest.Name = "longlat" then
      -- lines 80-81
      destAxis E dest tr (p0 * E.r2d * E.r2d :: p1 :: more)
    else
      -- lines 83-88
      match destForward p0 p1 with
      | .error err => ⟨tr ++ [.forward owner p0 p1], .ret E.NaN E.NaN (some err)⟩
      | .ok (q0, q1) =>
        destAxis E dest (tr ++ [.forward owner p0 p1])
          (q0 / dest.ToMeter :: q1 / dest.ToMeter :: more)
  | _ => ⟨tr, .panic⟩

/-- Lines 58-98: prime meridian of the source, datum transform, prime meridian
of the destination; then the destination step. -/
def datumStep (E : Env F) (source dest : SR F) (destForward : TransformFunc F) (owner : SR F)
    (tr : List (Call F)) (point : List F) : Run F :=
  match point with
  | p0 :: p1 :: more =>
    -- line 59
    let p0 := p0 + source.FromGreenwich
    -- lines 62-65
    let z : F := match more with
      | [p2] => p2
      | _ => 0
    -- lines 66-70
    match E.datumTransform source.datum dest.datum p0 p1 z with
    | .error err =>
      ⟨tr ++ [.datumTransform source.datum dest.datum p0 p1 z], .ret E.NaN E.NaN (some err)⟩
    | .ok (q0, q1, _) =>
      -- lines 71-73
      let more : List F := match more with
        | [_] => [2]
        | _ => more
      -- line 76
      destStep E dest destForward owner
        (tr ++ [.datumTransform source.datum dest.datum p0 p1 z])
        ((q0 - dest.FromGreenwich) :: q1 :: more)
  | _ => ⟨tr, .panic⟩

/-- Lines 46-98: the source point is brought to longitude and latitude in
radians; then the datum step. -/
def sourceStep (E : Env F) (source dest : SR F) (sourceInverse destForward : TransformFunc F)
    (tr : List (Call F)) (point : List F) : Run F :=
  match point with
  | p0 :: p1 :: more =>
    if source.Name = "longlat" then
      -- lines 48-49
      datumStep E source dest destForward source tr (p0 * E.deg2rad :: p1 * E.deg2rad :: more)
    else
      -- lines 51-56
      match sourceInverse (p0 * source.ToMeter) (p1 * source.ToMeter) with
      | .error err =>
        ⟨tr ++ [.inverse source (p0 * source.ToMeter) (p1 * source.ToMeter)],
          .ret E.NaN E.NaN (some err)⟩
      | .ok (q0, q1) =>
        datumStep E source dest destForward source
          (tr ++ [.inverse source (p0 * source.ToMeter) (p1 * source.ToMeter)]) (q0 :: q1 :: more)
  | _ => ⟨tr, .panic⟩

/-- Lines 32-98: everything after the pivot block, run with the effective
`source` on the working slice `point`. -/
def remainder (E : Env F) (source dest : SR F) (point : List F) : Run F :=
  -- lines 33-36
  match E.TransformFuncs source with
  | .error err => ⟨[.TransformFuncs source], .ret E.NaN E.NaN (some err)⟩
  | .ok (_, sourceInverse) =>
    -- lines 37-40: `destForward` is taken from `source.TransformFuncs()`
    match E.TransformFuncs source with
    | .error err =>
      ⟨[.TransformFuncs source, .TransformFuncs source], .ret E.NaN E.NaN (some err)⟩
    | .ok (destForward, _) =>
      -- lines 43-45: what `adjust_axis` returns is dropped, what it wrote stays
      if source.Axis ≠ "enu" then
        sourceStep E source dest sourceInverse destForward
          [.TransformFuncs source, .TransformFuncs source, .adjust_axis source false point]
          (overwrite point (E.adjust_axis source false point).written)
      else
        sourceStep E source dest sourceInverse destForward
          [.TransformFuncs source, .TransformFuncs source] point

/-- Lines 12-99: one invocation of the closure on `(x, y)`.  Returns the run and
the closure with its captured variables as the invocation leaves them.  `fuel`
bounds the depth of the pivot recursion of lines 22-26. -/
def invoke (E : Env F) : Nat → Closure F → F → F → Run F × Closure F
  | 0, c, _, _ => (⟨[], .outOfFuel⟩, c)
  | fuel + 1, c, x, y =>
    -- line 17
    if checkNotWGS E c.source c.dest || checkNotWGS E c.dest c.source then
      -- lines 18-21
      match E.Parse "WGS84" with
      | .error err => (⟨[.Parse "WGS84"], .ret E.NaN E.NaN (some err)⟩, c)
      | .ok wgs84 =>
        -- lines 22-25
        match NewTransformFunc c.source wgs84 with
        | (_, some err) => (⟨[.Parse "WGS84"], .ret E.NaN E.NaN (some err)⟩, c)
        | (t, none) =>
          -- lines 26-29
          let inner := (invoke E fuel t x y).1
          let tr : List (Call F) := [.Parse "WGS84", .nested c.source wgs84 x y] ++ inner.trace
          match inner.outcome with
          | .outOfFuel => (⟨tr, .outOfFuel⟩, c)
          | .panic => (⟨tr, .panic⟩, c)
          | .ret _ _ (some err) => (⟨tr, .ret E.NaN E.NaN (some err)⟩, c)
          | .ret x1 y1 none =>
            -- line 30, then lines 32-98 with the reassigned `source`
            let r := remainder E wgs84 c.dest [x1, y1]
            (⟨tr ++ r.trace, r.outcome⟩, ⟨wgs84, c.dest⟩)
    else
      (remainder E c.source c.dest [x, y], c)

end code

/-! ## A concrete environment

Exact rational arithmetic extended with a not-a-number value, and a small
environment over it, used to evaluate the code on concrete inputs. -/

/-- Rationals extended with `nan`.  An operation with a `nan` operand, and a
division by zero, give `nan`. -/
inductive XNum where
  | nan
  | val (q : ℚ)
deriving DecidableEq, Repr

/-- Lift a rational operation to `XNum`. -/
def XNum.lift2 (f : ℚ → ℚ → ℚ) : XNum → XNum → XNum
  | .val a, .val b => .val (f a b)
  | _, _ => .nan

/-- Division of `XNum`. -/
def XNum.div : XNum → XNum → XNum
  | .val a, .val b => if b = 0 then .nan else .val (a / b)
  | _, _ => .nan

instance : Add XNum := ⟨XNum.lift2 (· + ·)⟩
instance : Sub XNum := ⟨XNum.lift2 (· - ·)⟩
instance : Mul XNum := ⟨XNum.lift2 (· * ·)⟩
instance : Div XNum := ⟨XNum.div⟩
instance : Zero XNum := ⟨.val 0⟩
instance : OfNat XNum 2 := ⟨.val 2⟩

/-- The value of `datum_type` for a datum that needs a 3-parameter shift. -/
def pjd3Param : Int := 1
/-- The value of `datum_type` for a datum that needs a 7-parameter shift. -/
def pjd7Param : Int := 2
/-- The value of `datum_type` for the WGS84 datum. -/
def pjdWGS84 : Int := 4

/-- Geographic WGS84, as `Parse("WGS84")` gives it in the sample environment. -/
def wgs84 : SR XNum :=
  { Name := "longlat", DatumCode := "WGS84", Axis := "enu", ToMeter := .val 1,
    FromGreenwich := .val 0, datum := ⟨pjdWGS84, 0⟩, rest := 0 }

/-- Geographic coordinates on a datum with a 3-parameter shift. -/
def potsdam : SR XNum :=
  { Name := "longlat", DatumCode := "potsdam", Axis := "enu", ToMeter := .val 1,
    FromGreenwich := .val 0, datum := ⟨pjd3Param, 1⟩, rest := 0 }

/-- Plate carree on a sphere of radius `R` (stored in `rest`), WGS84 datum:
forward is `(R * lon, R * lat)`. -/
def eqc (R : Nat) : SR XNum :=
  { Name := "eqc", DatumCode := "WGS84", Axis := "enu", ToMeter := .val 1,
    FromGreenwich := .val 0, datum := ⟨pjdWGS84, 0⟩, rest := R }

/-- Plate carree on a sphere of radius `R` on the 3-parameter datum of `potsdam`. -/
def eqcPotsdam (R : Nat) : SR XNum :=
  { eqc R with DatumCode := "potsdam", datum := ⟨pjd3Param, 1⟩ }

/-- Geographic NAD83: a datum other than WGS84 that needs no parameter shift. -/
def nad83 : SR XNum :=
  { wgs84 with DatumCode := "NAD83", datum := ⟨pjdWGS84, 2⟩ }

/-- A spatial reference on the 3-parameter datum of `potsdam` whose projection
the sample environment does not know. -/
def krovak : SR XNum := { potsdam with Name := "krovak" }

/-- Geographic WGS84 with the axis order north-east-up. -/
def wgs84neu : SR XNum := { wgs84 with Axis := "neu" }

/-- Geographic WGS84 with an axis order that `adjust_axis` of the sample
environment rejects. -/
def wgs84xyz : SR XNum := { wgs84 with Axis := "xyz" }

/-- Geographic NAD83 with an axis order that `adjust_axis` of the sample
environment rejects. -/
def nad83xyz : SR XNum := { nad83 with Axis := "xyz" }

/-- The sample environment: `Parse` knows `"WGS84"`; `TransformFuncs` knows the
identity pair of `longlat` and the pair of `eqc`; `datumTransform` is the
identity; `adjust_axis` supports the axis orders that start with `e` or `n`,
swaps the first two coordinates in place for `n` and fails for the others. -/
def sampleEnv : Env XNum where
  Parse := fun name =>
    if name = "WGS84" then .ok wgs84 else .error ("unknown spatial reference: " ++ name)
  TransformFuncs := fun sr =>
    if sr.Name = "longlat" then
      .ok (fun x y => .ok (x, y), fun x y => .ok (x, y))
    else if sr.Name = "eqc" then
      .ok (fun x y => .ok (.val sr.rest * x, .val sr.rest * y),
           fun x y => .ok (x / .val sr.rest, y / .val sr.rest))
    else .error ("unknown projection: " ++ sr.Name)
  datumTransform := fun _ _ x y z => .ok (x, y, z)
  adjust_axis := fun sr _ point =>
    if sr.Axis.front = 'e' then ⟨fun i => point.getD i .nan, .ok point⟩
    else if sr.Axis.front = 'n' then
      ⟨fun i => (point.getD 1 .nan :: point.getD 0 .nan :: point.drop 2).getD i .nan,
        .ok (point.getD 1 .nan :: point.getD 0 .nan :: point.drop 2)⟩
    else ⟨fun i => point.getD i .nan, .error ("unknown axis: " ++ sr.Axis)⟩
  pjd3Param := pjd3Param
  pjd7Param := pjd7Param
  deg2rad := .val (11 / 630)
  r2d := .val (630 / 11)
  NaN := .nan

/-! ## Specification vocabulary for the transform -/

section vocabulary

variable {F : Type}

/-- The forward projection of `sr`: the first function of `sr.TransformFuncs()`
applied to `(x, y)`. -/
def forwardOf (E : Env F) (sr : SR F) (x y : F) : Except Err (F × F) :=
  match E.TransformFuncs sr with
  | .ok (forward, _) => forward x y
  | .error err => .error err

/-- The inverse projection of `sr`: the second function of `sr.TransformFuncs()`
applied to `(x, y)`. -/
def inverseOf (E : Env F) (sr : SR F) (x y : F) : Except Err (F × F) :=
  match E.TransformFuncs sr with
  | .ok (_, inverse) => inverse x y
  | .error err => .error err

/-- The call `call` is a collaborator call that fails with the error `err` in
the environment `E`.  For `adjust_axis` only the call on the destination
(`denorm = true`) counts: the result of the call on the source is dropped by
line 44.  A `nested` entry marks the start of the pivot transform and is not a
collaborator call. -/
def FailsWith (E : Env F) (call : Call F) (err : Err) : Prop :=
  match call with
  | .Parse name => E.Parse name = .error err
  | .nested _ _ _ _ => False
  | .TransformFuncs sr => E.TransformFuncs sr = .error err
  | .adjust_axis sr denorm point => denorm = true ∧ (E.adjust_axis sr denorm point).ret = .error err
  | .inverse sr x y => (E.TransformFuncs sr).isOk = true ∧ inverseOf E sr x y = .error err
  | .datumTransform src dst x y z => E.datumTransform src dst x y z = .error err
  | .forward sr x y => (E.TransformFuncs sr).isOk = true ∧ forwardOf E sr x y = .error err

/-- Every error that the run `r` returns comes with two `NaN` coordinates and is
the error of the collaborator call that `r` made last. -/
def Run.Faithful (E : Env F) (r : Run F) : Prop :=
  ∀ a b err, r.outcome = .ret a b (some err) →
    a = E.NaN ∧ b = E.NaN ∧ ∃ call, r.trace.getLast? = some call ∧ FailsWith E call err

/-- The calls that lines 32-98 can make when run with `source` and `dest`.  The
forward function called is the one of `source`: line 37 takes `destForward`
from `source.TransformFuncs()`. -/
def Call.InRemainder (source dest : SR F) : Call F → Prop
  | .Parse _ => False
  | .nested _ _ _ _ => False
  | .TransformFuncs sr => sr = source
  | .adjust_axis sr denorm _ => (sr = source ∧ denorm = false) ∨ (sr = dest ∧ denorm = true)
  | .inverse sr _ _ => sr = source
  | .datumTransform src dst _ _ _ => src = source.datum ∧ dst = dest.datum
  | .forward sr _ _ => sr = source

/-- Whether a trace entry marks a recursive call of the transform (line 26). -/
def Call.isNested : Call F → Bool
  | .nested _ _ _ _ => true
  | _ => false

/-- The environment `E` with the value returned by `adjust_axis(sr, false, point)`
replaced by `ret sr point`; what the call writes into its argument, and the
calls with `denorm = true`, stay as in `E`. -/
def withSourceAxisReturn (E : Env F) (ret : SR F → List F → Except Err (List F)) : Env F :=
  { E with
    adjust_axis := fun sr denorm point =>
      ⟨(E.adjust_axis sr denorm point).written,
        if denorm then (E.adjust_axis sr denorm point).ret else ret sr point⟩ }

/-- The condition of line 17 in the words of the specification. -/
def PivotCondition (E : Env F) (source dest : SR F) : Prop :=
  ((source.datum.datum_type = E.pjd3Param ∨ source.datum.datum_type = E.pjd7Param)
      ∧ dest.DatumCode ≠ "WGS84")
    ∨ ((dest.datum.datum_type = E.pjd3Param ∨ dest.datum.datum_type = E.pjd7Param)
      ∧ source.DatumCode ≠ "WGS84")

instance (E : Env F) (source dest : SR F) : Decidable (PivotCondition E source dest) := by
  unfold PivotCondition
  infer_instance

variable [Add F] [Sub F] [Mul F] [Div F] [Zero F] [OfNat F 2]

/-- The round trip of the specification: `A.NewTransformFunc(B)` applied to
`(x, y)`, then `B.NewTransformFunc(A)` applied to the result.  Each transform is
a fresh closure invoked once. -/
def roundTrip (E : Env F) (fuel : Nat) (A B : SR F) (x y : F) : Outcome F :=
  match (invoke E fuel (NewTransformFunc A B).1 x y).1.outcome with
  | .ret x1 y1 none => (invoke E fuel (NewTransformFunc B A).1 x1 y1).1.outcome
  | other => other

end vocabulary

end proj

/-! # MultiPoint (`multipoint.go`) -/

namespace geom

/-- The Go struct `Point`. -/
structure Point (F : Type) where
  X : F
  Y : F
deriving DecidableEq, Repr

/-- The Go struct `Bounds`: the corners `Min` and `Max`. -/
structure Bounds (F : Type) where
  Min : Point F
  Max : Point F
deriving DecidableEq, Repr

/-- `MultiPoint` is a slice of points. -/
abbrev MultiPoint (F : Type) := List (Point F)

section code

variable {F Polygonal : Type}

/-- The loop of lines 9-11: `b.extendPoint(p)` updates `b` in place for every
point in order. -/
def MultiPoint.boundsLoop (extendPoint : Bounds F → Point F → Bounds F) :
    Bounds F → List (Point F) → Bounds F
  | b, [] => b
  | b, p :: rest => MultiPoint.boundsLoop extendPoint (extendPoint b p) rest

/-- Lines 7-13: `MultiPoint.Bounds`.  `NewBounds` is the value of `NewBounds()`
and `extendPoint b p` the value of `*b` after `b.extendPoint(p)`; the sources at
hand define neither. -/
def MultiPoint.Bounds (NewBounds : geom.Bounds F)
    (extendPoint : geom.Bounds F → Point F → geom.Bounds F) (mp : MultiPoint F) :
    geom.Bounds F :=
  MultiPoint.boundsLoop extendPoint NewBounds mp

/-- Lines 16-23: `MultiPoint.Within`.  `pointInPolygonal` is not defined in the
sources at hand and is a parameter. -/
def MultiPoint.Within (pointInPolygonal : Point F → Polygonal → Bool) :
    MultiPoint F → Polygonal → Bool
  | [], _ => true
  | p :: rest, poly =>
    if !pointInPolygonal p poly then false
    else MultiPoint.Within pointInPolygonal rest poly

/-- Modelled from the spec: `Bounds.extendPoint`, which the sources at hand call
but do not define; it takes the coordinate-wise minimum into `Min` and the
coordinate-wise maximum into `Max`. -/
def extendPoint [Min F] [Max F] (b : Bounds F) (p : Point F) : Bounds F :=
  { Min := ⟨min b.Min.X p.X, min b.Min.Y p.Y⟩,
    Max := ⟨max b.Max.X p.X, max b.Max.Y p.Y⟩ }

end code

/-! ## Coordinates that may be not-a-number -/

/-- A `float64` coordinate as far as comparisons go: not-a-number, or a number
of the carrier `R`.  The numbers stand for the finite values and the infinities,
the two zeros being one number since they compare equal. -/
inductive Float64 (R : Type) where
  | NaN
  | num (r : R)
deriving DecidableEq, Repr

section float

variable {R : Type}

/-- The comparison `<=` of `float64`: false as soon as an operand is NaN. -/
def Float64.le [LE R] : Float64 R → Float64 R → Prop
  | .num a, .num b => a ≤ b
  | _, _ => False

instance [LE R] : LE (Float64 R) := ⟨Float64.le⟩

/-- Whether a coordinate is a number. -/
def Float64.isNumber : Float64 R → Bool
  | .num _ => true
  | .NaN => false

/-- Whether both coordinates of a point are numbers. -/
def Point.isNumber (p : Point (Float64 R)) : Bool :=
  p.X.isNumber && p.Y.isNumber

/-- Whether the four coordinates of the two corners are numbers. -/
def Bounds.isNumber (b : Bounds (Float64 R)) : Bool :=
  b.Min.isNumber && b.Max.isNumber

/-- A point of numbers as a point of `float64` coordinates. -/
def Point.toFloat64 (p : Point R) : Point (Float64 R) :=
  ⟨.num p.X, .num p.Y⟩

/-- Bounds of numbers as bounds of `float64` coordinates. -/
def Bounds.toFloat64 (b : Bounds R) : Bounds (Float64 R) :=
  ⟨b.Min.toFloat64, b.Max.toFloat64⟩

/-- The supposition of the claim on `extendPoint`, for `float64` coordinates: on
bounds and points whose coordinates are numbers, `extend` takes the
coordinate-wise minimum into `Min` and the coordinate-wise maximum into `Max`.
Nothing is supposed on what it does with a NaN. -/
def TakesMinMax [Min R] [Max R]
    (extend : Bounds (Float64 R) → Point (Float64 R) → Bounds (Float64 R)) : Prop :=
  ∀ (b : Bounds R) (p : Point R), extend b.toFloat64 p.toFloat64 = (extendPoint b p).toFloat64

/-- A binary operation on numbers as an operation on `float64` that gives NaN
when an operand is NaN. -/
def Float64.lift2 (f : R → R → R) : Float64 R → Float64 R → Float64 R
  | .num a, .num b => .num (f a b)
  | _, _ => .NaN

/-- One `extendPoint` on `float64` coordinates: the coordinate-wise minimum and
maximum, NaN when an operand is NaN. -/
def extendPointNaN [Min R] [Max R] (b : Bounds (Float64 R)) (p : Point (Float64 R)) :
    Bounds (Float64 R) :=
  { Min := ⟨Float64.lift2 min b.Min.X p.X, Float64.lift2 min b.Min.Y p.Y⟩,
    Max := ⟨Float64.lift2 max b.Max.X p.X, Float64.lift2 max b.Max.Y p.Y⟩ }

end float

/-- Fresh bounds that hold no point: `Min` above `Max`. -/
def emptyBounds : Bounds (Float64 Int) :=
  ⟨⟨.num 1000, .num 1000⟩, ⟨.num (-1000), .num (-1000)⟩⟩

/-- A MultiPoint of three points whose coordinates are numbers. -/
def threePoints : MultiPoint (Float64 Int) :=
  [⟨.num 3, .num (-2)⟩, ⟨.num (-5), .num 7⟩, ⟨.num 0, .num 0⟩]

/-- A MultiPoint with one point whose `X` is NaN. -/
def nanPoints : MultiPoint (Float64 Int) :=
  [⟨.NaN, .num 0⟩]

end geom

/-! # Tag statistics (`encoding/osm`) -/

namespace osm

/-- Modelled from the spec: the four kinds of primitive that `TagCount` counts;
the type is used by `extract_test.go` and its declaration is not in the sources
at hand. -/
inductive ObjectType where
  | Node
  | ClosedWay
  | OpenWay
  | Relation
deriving DecidableEq, Repr

/-- Modelled from the spec: `TagCount`, whose declaration is not in the sources
at hand; a (key, value) pair with one counter per kind of primitive. -/
structure TagCount where
  Key : String
  Value : String
  Node : Nat
  ClosedWay : Nat
  OpenWay : Nat
  Relation : Nat
deriving DecidableEq, Repr

/-- Modelled from the spec: the bucket count of one kind. -/
def TagCount.ObjectCount (t : TagCount) : ObjectType → Nat
  | .Node => t.Node
  | .ClosedWay => t.ClosedWay
  | .OpenWay => t.OpenWay
  | .Relation => t.Relation

/-- Modelled from the spec: the derived total of a `TagCount`, the sum of its
four counters. -/
def TagCount.TotalCount (t : TagCount) : Nat :=
  t.Node + t.ClosedWay + t.OpenWay + t.Relation

/-- A collection of `TagCount`s. -/
abbrev Tags := List TagCount

/-- The header row of the table. -/
def tableHeader : List String :=
  ["Key", "Value", "Total", "Node", "Closed way", "Open way", "Relation"]

/-- Modelled from the spec: the table row of one `TagCount`. -/
def TagCount.row (t : TagCount) : List String :=
  [t.Key, t.Value, Nat.repr t.TotalCount, Nat.repr t.Node, Nat.repr t.ClosedWay,
    Nat.repr t.OpenWay, Nat.repr t.Relation]

/-- The loop of `Table`: one row is appended per element. -/
def Tags.tableLoop : List (List String) → List TagCount → List (List String)
  | rows, [] => rows
  | rows, t :: rest => Tags.tableLoop (rows ++ [t.row]) rest

/-- Modelled from the spec: `Tags.Table`, which `extract_test.go` calls and the
sources at hand do not define: the header row, then one row per `TagCount`. -/
def Tags.Table (tags : Tags) : List (List String) :=
  Tags.tableLoop [tableHeader] tags

/-- The loop of `Filter`: a matching element is appended to the result. -/
def Tags.filterLoop (pred : TagCount → Bool) : List TagCount → List TagCount → List TagCount
  | out, [] => out
  | out, t :: rest => Tags.filterLoop pred (if pred t then out ++ [t] else out) rest

/-- Modelled from the spec: `Tags.Filter`, which `extract_test.go` calls and the
sources at hand do not define: the matching subset, relative order preserved. -/
def Tags.Filter (tags : Tags) (pred : TagCount → Bool) : Tags :=
  Tags.filterLoop pred [] tags

/-- The row that `TestCountTags` expects for `highway=residential`. -/
def highwayResidential : TagCount :=
  { Key := "highway", Value := "residential", Node := 0, ClosedWay := 55, OpenWay := 6784,
    Relation := 0 }

/-- The table `tableWant` of `TestCountTags`. -/
def tableWant : List (List String) :=
  [["Key", "Value", "Total", "Node", "Closed way", "Open way", "Relation"],
   ["highway", "residential", "6839", "0", "55", "6784", "0"]]

/-! ## Geometry assembly of ways -/

/-- A tag map, as the list of its (key, value) pairs. -/
abbrev TagMap := List (String × String)

/-- Modelled from the spec: a decoded node, with identity, coordinate and tags;
the declaration is not in the sources at hand. -/
structure Node (F : Type) where
  ID : Int
  Lon : F
  Lat : F
  Tags : TagMap
deriving DecidableEq, Repr

/-- Modelled from the spec: a decoded way, with identity, the ordered node
references and tags; the declaration is not in the sources at hand. -/
structure Way where
  ID : Int
  NodeIDs : List Int
  Tags : TagMap
deriving DecidableEq, Repr

/-- Modelled from the spec: the shapes the assembler produces; `extract_test.go`
names `Point`, `LineString`, `Polygon` and `MultiLineString` of package `geom`. -/
inductive Geometry (F : Type) where
  | Point (p : geom.Point F)
  | LineString (points : List (geom.Point F))
  | Polygon (rings : List (List (geom.Point F)))
  | MultiLineString (lines : List (List (geom.Point F)))
  | MultiPolygon (polygons : List (List (List (geom.Point F))))
deriving DecidableEq, Repr

/-- The struct `GeomTags` of `extract_test.go`: a geometry with the tag map of
the primitive it comes from. -/
structure GeomTags (F : Type) where
  Geom : Geometry F
  Tags : TagMap
deriving DecidableEq, Repr

section assembler

variable {F : Type}

/-- Modelled from the spec: the tag predicate, an exact match of key and value. -/
def hasTag (tags : TagMap) (key value : String) : Bool :=
  tags.lookup key == some value

/-- Modelled from the spec: the coordinate of the node with the given id in the
primitive store, if the store holds one. -/
def coordinate (nodes : List (Node F)) (id : Int) : Option (geom.Point F) :=
  match nodes.find? (fun n => n.ID == id) with
  | some n => some ⟨n.Lon, n.Lat⟩
  | none => none

/-- Modelled from the spec: the node references resolved to coordinates in
order, duplicates kept; `none` when a reference is dangling. -/
def resolveRefs (nodes : List (Node F)) : List Int → Option (List (geom.Point F))
  | [] => some []
  | id :: rest =>
    match coordinate nodes id with
    | none => none
    | some p =>
      match resolveRefs nodes rest with
      | none => none
      | some points => some (p :: points)

/-- Modelled from the spec: a way is closed when its first and last referenced
node ids are equal. -/
def Way.isClosed (w : Way) : Bool :=
  match w.NodeIDs.head?, w.NodeIDs.getLast? with
  | some first, some last => first == last
  | _, _ => false

/-- Modelled from the spec: the resolution of one way of the Geometry Assembler,
which `extract_test.go` exercises through `ExtractTag` and `Geom` and the
sources at hand do not define.  A dangling reference or fewer than two resolved
nodes skip the way (`none`); a closed way gives a polygon with that single
ring, an open way a line string; the tag map is the one of the way. -/
def assembleWay (nodes : List (Node F)) (w : Way) : Option (GeomTags F) :=
  match resolveRefs nodes w.NodeIDs with
  | none => none
  | some points =>
    if points.length < 2 then none
    else if w.isClosed then some ⟨.Polygon [points], w.Tags⟩
    else some ⟨.LineString points, w.Tags⟩

/-- Modelled from the spec: the pass of the Geometry Assembler over the ways:
one `GeomTags` per matching way that resolves, in scan order, and the count of
the matching ways that were skipped. -/
def assembleWays (nodes : List (Node F)) (key value : String) :
    List Way → List (GeomTags F) × Nat
  | [] => ([], 0)
  | w :: rest =>
    if hasTag w.Tags key value then
      match assembleWay nodes w with
      | some g => (g :: (assembleWays nodes key value rest).1,
          (assembleWays nodes key value rest).2)
      | none => ((assembleWays nodes key value rest).1,
          (assembleWays nodes key value rest).2 + 1)
    else assembleWays nodes key value rest

end assembler

/-- The two nodes of the way that `TestExtractTag_Line` expects, with ids chosen
here and coordinates in units of 1e-7 degree. -/
def trailNodes : List (Node Int) :=
  [{ ID := 1, Lon := -1578260688, Lat := 214041860, Tags := [] },
   { ID := 2, Lon := -1578258194, Lat := 214036865, Tags := [] }]

/-- The open way that `TestExtractTag_Line` expects, with its four tags. -/
def trailWay : Way :=
  { ID := 10, NodeIDs := [1, 2],
    Tags := [("highway", "path"), ("surface", "dirt"), ("trail_visibility", "bad"),
      ("access", "private")] }

/-- A closed way over the nodes of `trailNodes`. -/
def loopWay : Way :=
  { ID := 11, NodeIDs := [1, 2, 1], Tags := [("trail_visibility", "bad")] }

/-- A way with a reference to a node that the store does not hold. -/
def danglingWay : Way :=
  { ID := 12, NodeIDs := [1, 3], Tags := [("trail_visibility", "bad")] }


end osm

/-! # Theorems about the transform -/

namespace proj

section pipeline

set_option linter.unusedSectionVars false

variable {F : Type}

theorem getLast?_append_of_some {α : Type} (l₁ l₂ : List α) (c : α)
    (h : l₂.getLast? = some c) : (l₁ ++ l₂).getLast? = some c := by
  simp [List.getLast?_append, h]

theorem faithful_of_last (E : Env F) (tr : List (Call F)) (call : Call F) (err : Err)
    (hfail : FailsWith E call err) :
    Run.Faithful E ⟨tr ++ [call], .ret E.NaN E.NaN (some err)⟩ := by
  intro a b e h
  simp only [Outcome.ret.injEq, Option.some.injEq] at h
  obtain ⟨ha, hb, he⟩ := h
  subst ha hb he
  exact ⟨rfl, rfl, call, by simp, hfail⟩

theorem faithful_of_not_error (E : Env F) (r : Run F)
    (h : ∀ a b err, r.outcome ≠ .ret a b (some err)) : r.Faithful E :=
  fun a b err hr => absurd hr (h a b err)

theorem returnPoint_faithful (E : Env F) (tr : List (Call F)) (point : List F) :
    (returnPoint tr point).Faithful E := by
  apply faithful_of_not_error
  intro a b err h
  unfold returnPoint at h
  split at h <;> simp at h

theorem destAxis_faithful (E : Env F) (dest : SR F) (tr : List (Call F)) (point : List F) :
    (destAxis E dest tr point).Faithful E := by
  unfold destAxis
  split
  · split
    · rename_i err hret
      exact faithful_of_last E _ _ _ (by simp [FailsWith, hret])
    · exact returnPoint_faithful E _ _
  · exact returnPoint_faithful E _ _

variable [Add F] [Sub F] [Mul F] [Div F] [Zero F] [OfNat F 2]

theorem destStep_faithful (E : Env F) (dest owner : SR F) (fs : TransformFunc F × TransformFunc F)
    (hfs : E.TransformFuncs owner = .ok fs) (tr : List (Call F)) (point : List F) :
    (destStep E dest fs.1 owner tr point).Faithful E := by
  unfold destStep
  split
  · split
    · exact destAxis_faithful E _ _ _
    · split
      · rename_i err hret
        exact faithful_of_last E _ _ _ (by simp [FailsWith, forwardOf, hfs, hret, Except.isOk, Except.toBool])
      · exact destAxis_faithful E _ _ _
  · exact faithful_of_not_error E _ (by simp)

theorem datumStep_faithful (E : Env F) (source dest owner : SR F)
    (fs : TransformFunc F × TransformFunc F) (hfs : E.TransformFuncs owner = .ok fs)
    (tr : List (Call F)) (point : List F) :
    (datumStep E source dest fs.1 owner tr point).Faithful E := by
  unfold datumStep
  split
  · simp only
    split
    · rename_i err hret
      exact faithful_of_last E _ _ _ (by simp only [FailsWith]; exact hret)
    · exact destStep_faithful E _ _ fs hfs _ _
  · exact faithful_of_not_error E _ (by simp)

theorem sourceStep_faithful (E : Env F) (source dest : SR F)
    (fs : TransformFunc F × TransformFunc F) (hfs : E.TransformFuncs source = .ok fs)
    (tr : List (Call F)) (point : List F) :
    (sourceStep E source dest fs.2 fs.1 tr point).Faithful E := by
  unfold sourceStep
  split
  · split
    · exact datumStep_faithful E _ _ _ fs hfs _ _
    · split
      · rename_i err hret
        exact faithful_of_last E _ _ _ (by simp [FailsWith, inverseOf, hfs, hret, Except.isOk, Except.toBool])
      · exact datumStep_faithful E _ _ _ fs hfs _ _
  · exact faithful_of_not_error E _ (by simp)

theorem remainder_faithful (E : Env F) (source dest : SR F) (point : List F) :
    (remainder E source dest point).Faithful E := by
  unfold remainder
  cases hfs : E.TransformFuncs source with
  | error err =>
    exact faithful_of_last E [] _ _ (by simp only [FailsWith]; exact hfs)
  | ok fs =>
    obtain ⟨fwd, inv⟩ := fs
    simp only
    split
    · exact sourceStep_faithful E source dest (fwd, inv) hfs _ _
    · exact sourceStep_faithful E source dest (fwd, inv) hfs _ _

theorem invoke_faithful (E : Env F) (fuel : Nat) (c : Closure F) (x y : F) :
    (invoke E fuel c x y).1.Faithful E := by
  induction fuel generalizing c x y with
  | zero => exact faithful_of_not_error E _ (by simp [invoke])
  | succ fuel ih =>
    unfold invoke
    split
    · cases hp : E.Parse "WGS84" with
      | error err =>
        exact faithful_of_last E [] _ _ (by simp only [FailsWith]; exact hp)
      | ok wgs =>
        simp only [NewTransformFunc]
        have hin := ih ⟨c.source, wgs⟩ x y
        split
        · exact faithful_of_not_error E _ (by simp)
        · exact faithful_of_not_error E _ (by simp)
        · rename_i a0 b0 err hout
          intro a b e h
          simp only [Outcome.ret.injEq, Option.some.injEq] at h
          obtain ⟨ha, hb, he⟩ := h
          subst ha hb he
          obtain ⟨-, -, call, hlast, hfail⟩ := hin a0 b0 err hout
          exact ⟨rfl, rfl, call, getLast?_append_of_some _ _ _ hlast, hfail⟩
        · intro a b e h
          simp only at h
          obtain ⟨ha, hb, call, hlast, hfail⟩ := remainder_faithful E wgs c.dest _ a b e h
          exact ⟨ha, hb, call, getLast?_append_of_some _ _ _ hlast, hfail⟩
    · exact remainder_faithful E _ _ _

/-! ## Traces of the stages -/

theorem returnPoint_trace (tr : List (Call F)) (point : List F) :
    (returnPoint tr point).trace = tr := by
  unfold returnPoint
  split <;> rfl

theorem calls_concat (source dest : SR F) (tr : List (Call F)) (call : Call F)
    (htr : ∀ c ∈ tr, c.InRemainder source dest) (hcall : call.InRemainder source dest) :
    ∀ c ∈ tr ++ [call], c.InRemainder source dest := by
  intro c hc
  simp only [List.mem_append, List.mem_singleton] at hc
  rcases hc with h | rfl
  · exact htr c h
  · exact hcall

theorem destAxis_calls (E : Env F) (source dest : SR F) (tr : List (Call F)) (point : List F)
    (htr : ∀ c ∈ tr, c.InRemainder source dest) :
    ∀ c ∈ (destAxis E dest tr point).trace, c.InRemainder source dest := by
  have hcall : (Call.adjust_axis dest true point).InRemainder source dest := by
    simp [Call.InRemainder]
  unfold destAxis
  intro c hc
  split at hc
  · split at hc
    · exact calls_concat source dest tr _ htr hcall c hc
    · rw [returnPoint_trace] at hc
      exact calls_concat source dest tr _ htr hcall c hc
  · rw [returnPoint_trace] at hc
    exact htr c hc

theorem destStep_calls (E : Env F) (source dest : SR F) (f : TransformFunc F)
    (tr : List (Call F)) (point : List F) (htr : ∀ c ∈ tr, c.InRemainder source dest) :
    ∀ c ∈ (destStep E dest f source tr point).trace, c.InRemainder source dest := by
  unfold destStep
  split
  · split
    · exact destAxis_calls E source dest _ _ htr
    · split
      · exact calls_concat source dest tr _ htr (by simp [Call.InRemainder])
      · exact destAxis_calls E source dest _ _
          (calls_concat source dest tr _ htr (by simp [Call.InRemainder]))
  · exact htr

theorem datumStep_calls (E : Env F) (source dest : SR F) (f : TransformFunc F)
    (tr : List (Call F)) (point : List F) (htr : ∀ c ∈ tr, c.InRemainder source dest) :
    ∀ c ∈ (datumStep E source dest f source tr point).trace, c.InRemainder source dest := by
  unfold datumStep
  split
  · simp only
    split
    · exact calls_concat source dest tr _ htr (by simp [Call.InRemainder])
    · exact destStep_calls E source dest _ _ _
        (calls_concat source dest tr _ htr (by simp [Call.InRemainder]))
  · exact htr

theorem sourceStep_calls (E : Env F) (source dest : SR F) (f g : TransformFunc F)
    (tr : List (Call F)) (point : List F) (htr : ∀ c ∈ tr, c.InRemainder source dest) :
    ∀ c ∈ (sourceStep E source dest f g tr point).trace, c.InRemainder source dest := by
  unfold sourceStep
  split
  · split
    · exact datumStep_calls E source dest _ _ _ htr
    · split
      · exact calls_concat source dest tr _ htr (by simp [Call.InRemainder])
      · exact datumStep_calls E source dest _ _ _
          (calls_concat source dest tr _ htr (by simp [Call.InRemainder]))
  · exact htr

/-- Every call of the remainder of the pipeline is one of: `TransformFuncs` of
the source, the axis adjustment of the source or of the destination, the
inverse or the forward function of the source, the datum transform from the
datum of the source to the datum of the destination. -/
theorem remainder_calls (E : Env F) (source dest : SR F) (point : List F) :
    ∀ c ∈ (remainder E source dest point).trace, c.InRemainder source dest := by
  unfold remainder
  split
  · intro c hc
    simp only [List.mem_singleton] at hc
    subst hc
    simp [Call.InRemainder]
  · split
    · intro c hc
      simp only [List.mem_cons, List.mem_singleton, List.not_mem_nil, or_false] at hc
      rcases hc with rfl | rfl <;> simp [Call.InRemainder]
    · split
      · apply sourceStep_calls
        intro c hc
        simp only [List.mem_cons, List.mem_singleton, List.not_mem_nil, or_false] at hc
        rcases hc with rfl | rfl | rfl <;> simp [Call.InRemainder]
      · apply sourceStep_calls
        intro c hc
        simp only [List.mem_cons, List.mem_singleton, List.not_mem_nil, or_false] at hc
        rcases hc with rfl | rfl <;> simp [Call.InRemainder]

theorem remainder_no_Parse (E : Env F) (source dest : SR F) (point : List F) (name : String) :
    Call.Parse name ∉ (remainder E source dest point).trace := by
  intro hmem
  have h := remainder_calls E source dest point _ hmem
  simp [Call.InRemainder] at h

/-- The forward function that the remainder of the pipeline calls is the one of
its source. -/
theorem remainder_forward_of_source (E : Env F) (source dest sr : SR F) (point : List F)
    (x y : F) (hmem : Call.forward sr x y ∈ (remainder E source dest point).trace) :
    sr = source := by
  have h := remainder_calls E source dest point _ hmem
  simpa [Call.InRemainder] using h

/-- An invocation keeps the captured `dest`, and keeps the captured `source` or
replaces it by the result of `Parse("WGS84")`. -/
theorem invoke_closure_after (E : Env F) (fuel : Nat) (c : Closure F) (x y : F) :
    (invoke E fuel c x y).2.dest = c.dest
      ∧ ((invoke E fuel c x y).2.source = c.source
        ∨ E.Parse "WGS84" = .ok (invoke E fuel c x y).2.source) := by
  cases fuel with
  | zero => simp [invoke]
  | succ fuel =>
    unfold invoke
    split
    · cases hp : E.Parse "WGS84" with
      | error err => simp
      | ok wgs =>
        simp only [NewTransformFunc]
        split <;> simp
    · simp

theorem checkNotWGS_iff (E : Env F) (source dest : SR F) :
    checkNotWGS E source dest = true ↔
      (source.datum.datum_type = E.pjd3Param ∨ source.datum.datum_type = E.pjd7Param)
        ∧ dest.DatumCode ≠ "WGS84" := by
  simp [checkNotWGS]

theorem line17_iff (E : Env F) (source dest : SR F) :
    (checkNotWGS E source dest || checkNotWGS E dest source) = true ↔
      PivotCondition E source dest := by
  rw [Bool.or_eq_true, checkNotWGS_iff, checkNotWGS_iff]
  rfl

theorem invoke_no_pivot (E : Env F) (fuel : Nat) (source dest : SR F) (x y : F)
    (h : ¬ PivotCondition E source dest) :
    invoke E (fuel + 1) ⟨source, dest⟩ x y = (remainder E source dest [x, y], ⟨source, dest⟩) := by
  rw [← line17_iff] at h
  simp only [invoke, h]
  rfl

theorem invoke_pivot_head (E : Env F) (fuel : Nat) (source dest : SR F) (x y : F)
    (h : PivotCondition E source dest) :
    (invoke E (fuel + 1) ⟨source, dest⟩ x y).1.trace.head? = some (.Parse "WGS84") := by
  rw [← line17_iff] at h
  simp only [invoke, h, if_true]
  cases E.Parse "WGS84" with
  | error err => rfl
  | ok wgs =>
    simp only [NewTransformFunc]
    split <;> rfl

/-- C5: whenever the transform function returns a non-nil error, both returned
coordinates are `NaN` and the error is the one produced by the collaborator call
that failed, which is the last call the invocation made: `Parse("WGS84")`,
`TransformFuncs`, the inverse projection, `datumTransform`, the forward
projection held by `destForward`, or the axis adjustment of the destination (for
a failing pivot transform, the failing call inside it). -/
theorem invoke_error_is_NaN_with_originating_error (E : Env F) (fuel : Nat) (c : Closure F)
    (x y a b : F) (err : Err)
    (h : (invoke E fuel c x y).1.outcome = .ret a b (some err)) :
    a = E.NaN ∧ b = E.NaN ∧
      ∃ call, (invoke E fuel c x y).1.trace.getLast? = some call ∧ FailsWith E call err :=
  invoke_faithful E fuel c x y a b err h

/-- C6: the pivot is taken, that is `Parse("WGS84")` is the first call of the
invocation, exactly when the pivot condition holds; when it does not hold the
invocation is the remainder of the pipeline on `[x, y]` with the original
source, the captured variables stay as they are and `Parse` is never called. -/
theorem pivot_taken_iff_condition (E : Env F) (fuel : Nat) (source dest : SR F) (x y : F) :
    ((invoke E (fuel + 1) ⟨source, dest⟩ x y).1.trace.head? = some (.Parse "WGS84")
        ↔ PivotCondition E source dest) ∧
      (¬ PivotCondition E source dest →
        invoke E (fuel + 1) ⟨source, dest⟩ x y
            = (remainder E source dest [x, y], ⟨source, dest⟩) ∧
          ∀ name, Call.Parse name ∉ (invoke E (fuel + 1) ⟨source, dest⟩ x y).1.trace) := by
  have hno : ¬ PivotCondition E source dest →
      invoke E (fuel + 1) ⟨source, dest⟩ x y
          = (remainder E source dest [x, y], ⟨source, dest⟩) ∧
        ∀ name, Call.Parse name ∉ (invoke E (fuel + 1) ⟨source, dest⟩ x y).1.trace := by
    intro h
    refine ⟨invoke_no_pivot E fuel source dest x y h, ?_⟩
    intro name hmem
    rw [invoke_no_pivot E fuel source dest x y h] at hmem
    exact remainder_no_Parse E source dest [x, y] name hmem
  refine ⟨⟨?_, invoke_pivot_head E fuel source dest x y⟩, hno⟩
  intro hhead
  by_contra hcond
  obtain ⟨-, hnp⟩ := hno hcond
  exact hnp "WGS84" (List.mem_of_mem_head? hhead)

/-! ## The geographic case in general -/

theorem destStep_longlat (E : Env F) (dest owner : SR F) (f : TransformFunc F)
    (tr : List (Call F)) (p0 p1 : F) (more : List F)
    (hname : dest.Name = "longlat") (haxis : dest.Axis = "enu") :
    destStep E dest f owner tr (p0 :: p1 :: more)
      = ⟨tr, .ret (p0 * E.r2d * E.r2d) p1 none⟩ := by
  simp [destStep, destAxis, returnPoint, hname, haxis]

/-- Between two geographic spatial references with axis `enu` and without
pivot, the transform returns the datum-shifted longitude, less the prime
meridian of the destination, times `r2d` twice, and the datum-shifted latitude
as it is. -/
theorem invoke_geographic (E : Env F) (fuel : Nat) (A B : SR F) (x y q0 q1 q2 : F)
    (fs : TransformFunc F × TransformFunc F)
    (hA : A.Name = "longlat") (hAaxis : A.Axis = "enu")
    (hB : B.Name = "longlat") (hBaxis : B.Axis = "enu")
    (hpivot : ¬ PivotCondition E A B) (hfs : E.TransformFuncs A = .ok fs)
    (hdatum : E.datumTransform A.datum B.datum (x * E.deg2rad + A.FromGreenwich)
      (y * E.deg2rad) 0 = .ok (q0, q1, q2)) :
    (invoke E (fuel + 1) ⟨A, B⟩ x y).1.outcome
      = .ret ((q0 - B.FromGreenwich) * E.r2d * E.r2d) q1 none := by
  rw [invoke_no_pivot E fuel A B x y hpivot]
  obtain ⟨fwd, inv⟩ := fs
  simp [remainder, hfs, hAaxis, sourceStep, hA, datumStep, hdatum, destStep_longlat, hB, hBaxis]

/-! ## Properties of every call of a run -/

theorem all_concat (P : Call F → Prop) (tr : List (Call F)) (call : Call F)
    (htr : ∀ c ∈ tr, P c) (hcall : P call) : ∀ c ∈ tr ++ [call], P c := by
  intro c hc
  simp only [List.mem_append, List.mem_singleton] at hc
  rcases hc with h | rfl
  · exact htr c h
  · exact hcall

theorem destAxis_all (P : Call F → Prop) (E : Env F) (dest : SR F) (tr : List (Call F))
    (point : List F) (hadj : ∀ p, P (.adjust_axis dest true p)) (htr : ∀ c ∈ tr, P c) :
    ∀ c ∈ (destAxis E dest tr point).trace, P c := by
  unfold destAxis
  intro c hc
  split at hc
  · split at hc
    · exact all_concat P tr _ htr (hadj point) c hc
    · rw [returnPoint_trace] at hc
      exact all_concat P tr _ htr (hadj point) c hc
  · rw [returnPoint_trace] at hc
    exact htr c hc

theorem destStep_all (P : Call F → Prop) (E : Env F) (dest owner : SR F) (f : TransformFunc F)
    (tr : List (Call F)) (point : List F) (hadj : ∀ p, P (.adjust_axis dest true p))
    (hfwd : ∀ x y, P (.forward owner x y)) (htr : ∀ c ∈ tr, P c) :
    ∀ c ∈ (destStep E dest f owner tr point).trace, P c := by
  unfold destStep
  split
  · split
    · exact destAxis_all P E dest _ _ hadj htr
    · split
      · exact all_concat P tr _ htr (hfwd _ _)
      · exact destAxis_all P E dest _ _ hadj (all_concat P tr _ htr (hfwd _ _))
  · exact htr

/-- The datum step on a slice of two elements, without the two branches on
`len(point) == 3`. -/
theorem datumStep_two (E : Env F) (source dest owner : SR F) (f : TransformFunc F)
    (tr : List (Call F)) (lon lat : F) :
    datumStep E source dest f owner tr [lon, lat]
      = match E.datumTransform source.datum dest.datum (lon + source.FromGreenwich) lat 0 with
        | .error err =>
          ⟨tr ++ [.datumTransform source.datum dest.datum (lon + source.FromGreenwich) lat 0],
            .ret E.NaN E.NaN (some err)⟩
        | .ok (dlon, dlat, _) =>
          destStep E dest f owner
            (tr ++ [.datumTransform source.datum dest.datum (lon + source.FromGreenwich) lat 0])
            [dlon - dest.FromGreenwich, dlat] := by
  simp only [datumStep]

theorem datumStep_two_all (P : Call F → Prop) (E : Env F) (source dest owner : SR F)
    (f : TransformFunc F) (tr : List (Call F)) (lon lat : F)
    (hadj : ∀ p, P (.adjust_axis dest true p)) (hfwd : ∀ x y, P (.forward owner x y))
    (hdat : ∀ x y, P (.datumTransform source.datum dest.datum x y 0))
    (htr : ∀ c ∈ tr, P c) :
    ∀ c ∈ (datumStep E source dest f owner tr [lon, lat]).trace, P c := by
  rw [datumStep_two]
  split
  · exact all_concat P tr _ htr (hdat _ _)
  · exact destStep_all P E dest owner f _ _ hadj hfwd (all_concat P tr _ htr (hdat _ _))

/-- The source step on a slice of two elements. -/
theorem sourceStep_two (E : Env F) (source dest : SR F) (inv fwd : TransformFunc F)
    (tr : List (Call F)) (p0 p1 : F) :
    sourceStep E source dest inv fwd tr [p0, p1]
      = if source.Name = "longlat" then
          datumStep E source dest fwd source tr [p0 * E.deg2rad, p1 * E.deg2rad]
        else
          match inv (p0 * source.ToMeter) (p1 * source.ToMeter) with
          | .error err =>
            ⟨tr ++ [.inverse source (p0 * source.ToMeter) (p1 * source.ToMeter)],
              .ret E.NaN E.NaN (some err)⟩
          | .ok (q0, q1) =>
            datumStep E source dest fwd source
              (tr ++ [.inverse source (p0 * source.ToMeter) (p1 * source.ToMeter)]) [q0, q1] := by
  simp only [sourceStep]

theorem sourceStep_two_all (P : Call F → Prop) (E : Env F) (source dest : SR F)
    (inv fwd : TransformFunc F) (tr : List (Call F)) (p0 p1 : F)
    (hadj : ∀ p, P (.adjust_axis dest true p)) (hfwd : ∀ x y, P (.forward source x y))
    (hdat : ∀ x y, P (.datumTransform source.datum dest.datum x y 0))
    (hinv : source.Name ≠ "longlat" → ∀ x y, P (.inverse source x y))
    (htr : ∀ c ∈ tr, P c) :
    ∀ c ∈ (sourceStep E source dest inv fwd tr [p0, p1]).trace, P c := by
  rw [sourceStep_two]
  split
  · exact datumStep_two_all P E source dest source fwd tr _ _ hadj hfwd hdat htr
  · rename_i hname
    split
    · exact all_concat P tr _ htr (hinv hname _ _)
    · exact datumStep_two_all P E source dest source fwd _ _ _ hadj hfwd hdat
        (all_concat P tr _ htr (hinv hname _ _))

theorem overwrite_two (x y : F) (written : Nat → F) :
    overwrite [x, y] written = [written 0, written 1] := rfl

/-- A property of calls holds for every call of lines 32-98 run on a slice of two
elements as soon as it holds for the calls those lines can make. -/
theorem remainder_two_all (P : Call F → Prop) (E : Env F) (source dest : SR F) (x y : F)
    (hfuncs : P (.TransformFuncs source)) (hsrc : ∀ p, P (.adjust_axis source false p))
    (hadj : ∀ p, P (.adjust_axis dest true p)) (hfwd : ∀ a b, P (.forward source a b))
    (hdat : ∀ a b, P (.datumTransform source.datum dest.datum a b 0))
    (hinv : source.Name ≠ "longlat" → ∀ a b, P (.inverse source a b)) :
    ∀ c ∈ (remainder E source dest [x, y]).trace, P c := by
  unfold remainder
  split
  · intro c hc
    simp only [List.mem_singleton] at hc
    subst hc
    exact hfuncs
  · split
    · intro c hc
      simp only [List.mem_cons, List.mem_singleton, List.not_mem_nil, or_false] at hc
      rcases hc with rfl | rfl <;> exact hfuncs
    · split
      · rw [overwrite_two]
        apply sourceStep_two_all P E source dest _ _ _ _ _ hadj hfwd hdat hinv
        intro c hc
        simp only [List.mem_cons, List.mem_singleton, List.not_mem_nil, or_false] at hc
        rcases hc with rfl | rfl | rfl
        · exact hfuncs
        · exact hfuncs
        · exact hsrc _
      · apply sourceStep_two_all P E source dest _ _ _ _ _ hadj hfwd hdat hinv
        intro c hc
        simp only [List.mem_cons, List.mem_singleton, List.not_mem_nil, or_false] at hc
        rcases hc with rfl | rfl <;> exact hfuncs

/-- A property of calls holds for every call of an invocation as soon as it holds
for `Parse("WGS84")`, for the `nested` marks and for every call of lines 32-98
run on a slice of two elements. -/
theorem invoke_all (P : Call F → Prop) (E : Env F) (hparse : P (.Parse "WGS84"))
    (hnested : ∀ s d a b, P (.nested s d a b))
    (hrem : ∀ s d a b, ∀ c ∈ (remainder E s d [a, b]).trace, P c)
    (fuel : Nat) (c : Closure F) (x y : F) :
    ∀ call ∈ (invoke E fuel c x y).1.trace, P call := by
  induction fuel generalizing c x y with
  | zero =>
    intro call hcall
    simp [invoke] at hcall
  | succ fuel ih =>
    unfold invoke
    split
    · cases hp : E.Parse "WGS84" with
      | error err =>
        intro call hcall
        simp only [List.mem_singleton] at hcall
        subst hcall
        exact hparse
      | ok wgs =>
        simp only [NewTransformFunc]
        have hhead : ∀ call ∈ [Call.Parse "WGS84", Call.nested c.source wgs x y]
            ++ (invoke E fuel ⟨c.source, wgs⟩ x y).1.trace, P call := by
          intro call hcall
          simp only [List.mem_append, List.mem_cons, List.mem_singleton, List.not_mem_nil,
            or_false] at hcall
          rcases hcall with (rfl | rfl) | h
          · exact hparse
          · exact hnested _ _ _ _
          · exact ih ⟨c.source, wgs⟩ x y call h
        split
        · exact hhead
        · exact hhead
        · exact hhead
        · intro call hcall
          simp only at hcall
          rcases List.mem_append.mp hcall with h | h
          · exact hhead call h
          · exact hrem _ _ _ _ call h
    · exact hrem _ _ _ _

/-! ## The pivot block and the steps of lines 46-76 -/

theorem invoke_pivot_parse_error (E : Env F) (fuel : Nat) (source dest : SR F) (x y : F)
    (err : Err) (hpivot : PivotCondition E source dest) (hp : E.Parse "WGS84" = .error err) :
    invoke E (fuel + 1) ⟨source, dest⟩ x y
      = (⟨[.Parse "WGS84"], .ret E.NaN E.NaN (some err)⟩, ⟨source, dest⟩) := by
  rw [← line17_iff] at hpivot
  simp only [invoke, hpivot, if_true, hp]

theorem invoke_pivot_nested_error (E : Env F) (fuel : Nat) (source dest wgs : SR F)
    (x y a b : F) (err : Err) (hpivot : PivotCondition E source dest)
    (hp : E.Parse "WGS84" = .ok wgs)
    (hout : (invoke E fuel ⟨source, wgs⟩ x y).1.outcome = .ret a b (some err)) :
    invoke E (fuel + 1) ⟨source, dest⟩ x y
      = (⟨[.Parse "WGS84", .nested source wgs x y] ++ (invoke E fuel ⟨source, wgs⟩ x y).1.trace,
          .ret E.NaN E.NaN (some err)⟩, ⟨source, dest⟩) := by
  rw [← line17_iff] at hpivot
  simp only [invoke, hpivot, if_true, hp, NewTransformFunc, hout]

theorem invoke_pivot_nested_ok (E : Env F) (fuel : Nat) (source dest wgs : SR F)
    (x y x1 y1 : F) (hpivot : PivotCondition E source dest)
    (hp : E.Parse "WGS84" = .ok wgs)
    (hout : (invoke E fuel ⟨source, wgs⟩ x y).1.outcome = .ret x1 y1 none) :
    invoke E (fuel + 1) ⟨source, dest⟩ x y
      = (⟨[.Parse "WGS84", .nested source wgs x y] ++ (invoke E fuel ⟨source, wgs⟩ x y).1.trace
            ++ (remainder E wgs dest [x1, y1]).trace,
          (remainder E wgs dest [x1, y1]).outcome⟩, ⟨wgs, dest⟩) := by
  rw [← line17_iff] at hpivot
  simp only [invoke, hpivot, if_true, hp, NewTransformFunc, hout]

/-- C12: when the pivot condition holds, a failing `Parse("WGS84")` or a failing
pivot transform ends the invocation with that error and no later call; when the
pivot transform returns `(x1, y1)` the invocation continues as lines 32-98 with
the WGS84 descriptor as source on `[x1, y1]`, and its result is the result of
that remainder. -/
theorem pivot_result_is_remainder_from_wgs84 (E : Env F) (fuel : Nat) (source dest : SR F)
    (x y : F) (hpivot : PivotCondition E source dest) :
    (∀ err, E.Parse "WGS84" = .error err →
        invoke E (fuel + 1) ⟨source, dest⟩ x y
          = (⟨[.Parse "WGS84"], .ret E.NaN E.NaN (some err)⟩, ⟨source, dest⟩))
      ∧ (∀ wgs a b err, E.Parse "WGS84" = .ok wgs →
          (invoke E fuel (NewTransformFunc source wgs).1 x y).1.outcome = .ret a b (some err) →
          invoke E (fuel + 1) ⟨source, dest⟩ x y
            = (⟨[.Parse "WGS84", .nested source wgs x y]
                  ++ (invoke E fuel (NewTransformFunc source wgs).1 x y).1.trace,
                .ret E.NaN E.NaN (some err)⟩, ⟨source, dest⟩))
      ∧ (∀ wgs x1 y1, E.Parse "WGS84" = .ok wgs →
          (invoke E fuel (NewTransformFunc source wgs).1 x y).1.outcome = .ret x1 y1 none →
          invoke E (fuel + 1) ⟨source, dest⟩ x y
            = (⟨[.Parse "WGS84", .nested source wgs x y]
                  ++ (invoke E fuel (NewTransformFunc source wgs).1 x y).1.trace
                  ++ (remainder E wgs dest [x1, y1]).trace,
                (remainder E wgs dest [x1, y1]).outcome⟩, ⟨wgs, dest⟩)) :=
  ⟨fun err hp => invoke_pivot_parse_error E fuel source dest x y err hpivot hp,
    fun wgs a b err hp hout =>
      invoke_pivot_nested_error E fuel source dest wgs x y a b err hpivot hp hout,
    fun wgs x1 y1 hp hout =>
      invoke_pivot_nested_ok E fuel source dest wgs x y x1 y1 hpivot hp hout⟩

theorem inverseOf_eq (E : Env F) (source : SR F) (fs : TransformFunc F × TransformFunc F)
    (hfs : E.TransformFuncs source = .ok fs) : inverseOf E source = fs.2 := by
  funext x y
  simp [inverseOf, hfs]

theorem forwardOf_eq (E : Env F) (source : SR F) (fs : TransformFunc F × TransformFunc F)
    (hfs : E.TransformFuncs source = .ok fs) : forwardOf E source = fs.1 := by
  funext x y
  simp [forwardOf, hfs]

/-- When `source.TransformFuncs()` succeeds, lines 32-98 are the source step run
with the inverse and the forward function of the source, after the in-place
axis adjustment of the source when its axis order is not `enu`. -/
theorem remainder_eq_sourceStep (E : Env F) (source dest : SR F) (x y : F)
    (hok : (E.TransformFuncs source).isOk = true) :
    remainder E source dest [x, y]
      = if source.Axis ≠ "enu" then
          sourceStep E source dest (inverseOf E source) (forwardOf E source)
            [.TransformFuncs source, .TransformFuncs source, .adjust_axis source false [x, y]]
            [(E.adjust_axis source false [x, y]).written 0,
              (E.adjust_axis source false [x, y]).written 1]
        else
          sourceStep E source dest (inverseOf E source) (forwardOf E source)
            [.TransformFuncs source, .TransformFuncs source] [x, y] := by
  cases hfs : E.TransformFuncs source with
  | error err => simp [hfs, Except.isOk, Except.toBool] at hok
  | ok fs =>
    rw [inverseOf_eq E source fs hfs, forwardOf_eq E source fs hfs]
    obtain ⟨fwd, inv⟩ := fs
    simp only [remainder, hfs, overwrite_two]

/-- C13: with a source named `longlat` both coordinates are multiplied by
`deg2rad` and no inverse projection is called; otherwise both coordinates are
multiplied by `source.ToMeter` and handed to the inverse projection of the
source, whose error ends the invocation and whose output is the longitude and
latitude of the datum step. -/
theorem source_step_to_geographic (E : Env F) (source dest : SR F) (x y : F) :
    ((E.TransformFuncs source).isOk = true →
        remainder E source dest [x, y]
          = if source.Axis ≠ "enu" then
              sourceStep E source dest (inverseOf E source) (forwardOf E source)
                [.TransformFuncs source, .TransformFuncs source,
                  .adjust_axis source false [x, y]]
                [(E.adjust_axis source false [x, y]).written 0,
                  (E.adjust_axis source false [x, y]).written 1]
            else
              sourceStep E source dest (inverseOf E source) (forwardOf E source)
                [.TransformFuncs source, .TransformFuncs source] [x, y])
      ∧ (source.Name = "longlat" →
          (∀ tr p0 p1,
            sourceStep E source dest (inverseOf E source) (forwardOf E source) tr [p0, p1]
              = datumStep E source dest (forwardOf E source) source tr
                  [p0 * E.deg2rad, p1 * E.deg2rad])
          ∧ ∀ sr a b, Call.inverse sr a b ∉ (remainder E source dest [x, y]).trace)
      ∧ (source.Name ≠ "longlat" →
          (∀ tr p0 p1 err,
            inverseOf E source (p0 * source.ToMeter) (p1 * source.ToMeter) = .error err →
            sourceStep E source dest (inverseOf E source) (forwardOf E source) tr [p0, p1]
              = ⟨tr ++ [.inverse source (p0 * source.ToMeter) (p1 * source.ToMeter)],
                  .ret E.NaN E.NaN (some err)⟩)
          ∧ ∀ tr p0 p1 lon lat,
            inverseOf E source (p0 * source.ToMeter) (p1 * source.ToMeter) = .ok (lon, lat) →
            sourceStep E source dest (inverseOf E source) (forwardOf E source) tr [p0, p1]
              = datumStep E source dest (forwardOf E source) source
                  (tr ++ [.inverse source (p0 * source.ToMeter) (p1 * source.ToMeter)])
                  [lon, lat]) := by
  refine ⟨remainder_eq_sourceStep E source dest x y, ?_, ?_⟩
  · intro hname
    refine ⟨?_, ?_⟩
    · intro tr p0 p1
      rw [sourceStep_two, if_pos hname]
    · intro sr a b hmem
      have h := remainder_two_all (fun c => ∀ sr a b, c ≠ Call.inverse sr a b) E source dest x y
        (by intro sr a b h; cases h) (by intro p sr a b h; cases h)
        (by intro p sr a b h; cases h) (by intro u v sr a b h; cases h)
        (by intro u v sr a b h; cases h) (fun hne => absurd hname hne) _ hmem
      exact h sr a b rfl
  · intro hname
    refine ⟨?_, ?_⟩
    · intro tr p0 p1 err hinv
      rw [sourceStep_two, if_neg hname, hinv]
    · intro tr p0 p1 lon lat hinv
      rw [sourceStep_two, if_neg hname, hinv]

/-- C14: the datum transform receives the geographic longitude of the source
plus `source.FromGreenwich` and the latitude as it is; the destination step
receives the datum-transformed longitude minus `dest.FromGreenwich` and the
datum-transformed latitude as it is. -/
theorem prime_meridian_adjusts_longitude_only (E : Env F) (source dest owner : SR F)
    (f : TransformFunc F) (tr : List (Call F)) (lon lat : F) :
    (∀ err,
        E.datumTransform source.datum dest.datum (lon + source.FromGreenwich) lat 0
          = .error err →
        datumStep E source dest f owner tr [lon, lat]
          = ⟨tr ++ [.datumTransform source.datum dest.datum (lon + source.FromGreenwich) lat 0],
              .ret E.NaN E.NaN (some err)⟩)
      ∧ ∀ dlon dlat dz,
        E.datumTransform source.datum dest.datum (lon + source.FromGreenwich) lat 0
          = .ok (dlon, dlat, dz) →
        datumStep E source dest f owner tr [lon, lat]
          = destStep E dest f owner
              (tr ++ [.datumTransform source.datum dest.datum (lon + source.FromGreenwich) lat 0])
              [dlon - dest.FromGreenwich, dlat] := by
  refine ⟨?_, ?_⟩
  · intro err h
    rw [datumStep_two, h]
  · intro dlon dlat dz h
    rw [datumStep_two, h]

/-- C18: `NewTransformFunc` returns the closure over `source` and `dest` with a
nil error, and calls no collaborator; an unparseable WGS84 pivot descriptor and
a failing `TransformFuncs` are returned by the invocation of the closure. -/
theorem construction_never_fails (E : Env F) (fuel : Nat) (source dest : SR F) (x y : F) :
    NewTransformFunc source dest = (⟨source, dest⟩, none)
      ∧ (∀ err, PivotCondition E source dest → E.Parse "WGS84" = .error err →
          (invoke E (fuel + 1) (NewTransformFunc source dest).1 x y).1
            = ⟨[.Parse "WGS84"], .ret E.NaN E.NaN (some err)⟩)
      ∧ ∀ err, ¬ PivotCondition E source dest → E.TransformFuncs source = .error err →
          (invoke E (fuel + 1) (NewTransformFunc source dest).1 x y).1
            = ⟨[.TransformFuncs source], .ret E.NaN E.NaN (some err)⟩ := by
  refine ⟨rfl, ?_, ?_⟩
  · intro err hpivot hp
    simp only [NewTransformFunc]
    rw [invoke_pivot_parse_error E fuel source dest x y err hpivot hp]
  · intro err hpivot hfs
    simp only [NewTransformFunc]
    rw [invoke_no_pivot E fuel source dest x y hpivot]
    simp only [remainder, hfs]

/-! ## The elevation at the datum transform -/

theorem remainder_datumTransform_args (E : Env F) (source dest : SR F) (x y : F)
    (src dst : datum) (px py z : F)
    (hmem : Call.datumTransform src dst px py z ∈ (remainder E source dest [x, y]).trace) :
    src = source.datum ∧ dst = dest.datum ∧ z = 0 := by
  have h := remainder_two_all
    (fun c => ∀ src dst px py z, c = Call.datumTransform src dst px py z →
      src = source.datum ∧ dst = dest.datum ∧ z = 0) E source dest x y
    (by intro src dst px py z h; cases h) (by intro p src dst px py z h; cases h)
    (by intro p src dst px py z h; cases h) (by intro a b src dst px py z h; cases h)
    (by intro a b src dst px py z h; cases h; exact ⟨rfl, rfl, rfl⟩)
    (by intro _ a b src dst px py z h; cases h) _ hmem
  exact h src dst px py z rfl

theorem invoke_datumTransform_elevation (E : Env F) (fuel : Nat) (c : Closure F) (x y : F)
    (src dst : datum) (px py z : F)
    (hmem : Call.datumTransform src dst px py z ∈ (invoke E fuel c x y).1.trace) : z = 0 := by
  have h := invoke_all
    (fun call => ∀ src dst px py z, call = Call.datumTransform src dst px py z → z = 0) E
    (by intro src dst px py z h; cases h) (by intro s d a b src dst px py z h; cases h)
    (by
      intro s d a b call hcall src dst px py z heq
      subst heq
      exact (remainder_datumTransform_args E s d a b src dst px py z hcall).2.2)
    fuel c x y _ hmem
  exact h src dst px py z rfl

/-- Lines 32-98 on a slice of two elements reach the datum step with a slice of
two elements, or end before it without a call of `datumTransform`. -/
theorem remainder_reaches_datumStep_with_two (E : Env F) (source dest : SR F) (x y : F) :
    (∃ f tr lon lat,
        remainder E source dest [x, y] = datumStep E source dest f source tr [lon, lat])
      ∨ ∀ src dst px py z,
        Call.datumTransform src dst px py z ∉ (remainder E source dest [x, y]).trace := by
  cases hfs : E.TransformFuncs source with
  | error err =>
    right
    intro src dst px py z hmem
    simp [remainder, hfs] at hmem
  | ok fs =>
    have hok : (E.TransformFuncs source).isOk = true := by
      simp [hfs, Except.isOk, Except.toBool]
    rw [remainder_eq_sourceStep E source dest x y hok]
    have key : ∀ (tr : List (Call F)) (p0 p1 : F),
        (∀ src dst px py z, Call.datumTransform src dst px py z ∉ tr) →
        (∃ f tr' lon lat,
            sourceStep E source dest (inverseOf E source) (forwardOf E source) tr [p0, p1]
              = datumStep E source dest f source tr' [lon, lat])
          ∨ ∀ src dst px py z, Call.datumTransform src dst px py z ∉
            (sourceStep E source dest (inverseOf E source) (forwardOf E source) tr
              [p0, p1]).trace := by
      intro tr p0 p1 htr
      rw [sourceStep_two]
      split
      · exact Or.inl ⟨_, _, _, _, rfl⟩
      · split
        · right
          intro src dst px py z hmem
          simp only [List.mem_append, List.mem_singleton] at hmem
          rcases hmem with h | h
          · exact htr src dst px py z h
          · cases h
        · exact Or.inl ⟨_, _, _, _, rfl⟩
    split
    · apply key
      intro src dst px py z hmem
      simp at hmem
    · apply key
      intro src dst px py z hmem
      simp at hmem

/-- C15: every call of `datumTransform` made by lines 32-98 has the datum of the
effective source, the datum of the destination and elevation zero; every call of
`datumTransform` of an invocation has elevation zero; and the datum step is
reached with a slice of exactly two elements, so that neither branch on
`len(point) == 3` is taken. -/
theorem datumTransform_gets_zero_elevation (E : Env F) (source dest : SR F) (x y : F) :
    (∀ src dst px py z,
        Call.datumTransform src dst px py z ∈ (remainder E source dest [x, y]).trace →
        src = source.datum ∧ dst = dest.datum ∧ z = 0)
      ∧ (∀ fuel c src dst px py z,
          Call.datumTransform src dst px py z ∈ (invoke E fuel c x y).1.trace → z = 0)
      ∧ ((∃ f tr lon lat,
            remainder E source dest [x, y] = datumStep E source dest f source tr [lon, lat])
          ∨ ∀ src dst px py z,
            Call.datumTransform src dst px py z ∉ (remainder E source dest [x, y]).trace) :=
  ⟨remainder_datumTransform_args E source dest x y,
    fun fuel c => invoke_datumTransform_elevation E fuel c x y,
    remainder_reaches_datumStep_with_two E source dest x y⟩

/-! ## The depth of the pivot recursion -/

theorem returnPoint_not_outOfFuel (tr : List (Call F)) (point : List F) :
    (returnPoint tr point).outcome ≠ .outOfFuel := by
  unfold returnPoint
  split <;> simp

theorem destAxis_not_outOfFuel (E : Env F) (dest : SR F) (tr : List (Call F)) (point : List F) :
    (destAxis E dest tr point).outcome ≠ .outOfFuel := by
  unfold destAxis
  split
  · split
    · simp
    · exact returnPoint_not_outOfFuel _ _
  · exact returnPoint_not_outOfFuel _ _

theorem destStep_not_outOfFuel (E : Env F) (dest owner : SR F) (f : TransformFunc F)
    (tr : List (Call F)) (point : List F) :
    (destStep E dest f owner tr point).outcome ≠ .outOfFuel := by
  unfold destStep
  split
  · split
    · exact destAxis_not_outOfFuel E _ _ _
    · split
      · simp
      · exact destAxis_not_outOfFuel E _ _ _
  · simp

theorem datumStep_not_outOfFuel (E : Env F) (source dest owner : SR F) (f : TransformFunc F)
    (tr : List (Call F)) (point : List F) :
    (datumStep E source dest f owner tr point).outcome ≠ .outOfFuel := by
  unfold datumStep
  split
  · simp only
    split
    · simp
    · exact destStep_not_outOfFuel E _ _ _ _ _
  · simp

theorem sourceStep_not_outOfFuel (E : Env F) (source dest : SR F) (inv fwd : TransformFunc F)
    (tr : List (Call F)) (point : List F) :
    (sourceStep E source dest inv fwd tr point).outcome ≠ .outOfFuel := by
  unfold sourceStep
  split
  · split
    · exact datumStep_not_outOfFuel E _ _ _ _ _ _
    · split
      · simp
      · exact datumStep_not_outOfFuel E _ _ _ _ _ _
  · simp

/-- Lines 32-98 hold no recursive call: they always end. -/
theorem remainder_not_outOfFuel (E : Env F) (source dest : SR F) (point : List F) :
    (remainder E source dest point).outcome ≠ .outOfFuel := by
  unfold remainder
  split
  · simp
  · split
    · simp
    · split
      · exact sourceStep_not_outOfFuel E _ _ _ _ _ _
      · exact sourceStep_not_outOfFuel E _ _ _ _ _ _

theorem remainder_no_nested (E : Env F) (source dest : SR F) (point : List F) :
    (remainder E source dest point).trace.filter Call.isNested = [] := by
  rw [List.filter_eq_nil_iff]
  intro c hc
  have h := remainder_calls E source dest point c hc
  cases c <;> simp [Call.InRemainder, Call.isNested] at h ⊢

theorem wgs84_never_pivots (E : Env F) (wgs : SR F) (hcode : wgs.DatumCode = "WGS84")
    (h3 : wgs.datum.datum_type ≠ E.pjd3Param) (h7 : wgs.datum.datum_type ≠ E.pjd7Param)
    (source : SR F) :
    checkNotWGS E source wgs = false ∧ checkNotWGS E wgs source = false := by
  simp [checkNotWGS, hcode, h3, h7]

theorem invoke_succ_congr (E : Env F) (n m : Nat) (c : Closure F) (x y : F)
    (h : ∀ wgs, E.Parse "WGS84" = .ok wgs →
      (invoke E n ⟨c.source, wgs⟩ x y).1 = (invoke E m ⟨c.source, wgs⟩ x y).1) :
    invoke E (n + 1) c x y = invoke E (m + 1) c x y := by
  cases hp : E.Parse "WGS84" with
  | error err => simp only [invoke, hp]
  | ok wgs => simp only [invoke, hp, NewTransformFunc, h wgs hp]

/-- One unfolding of an invocation that takes the pivot with a parsed WGS84
descriptor, in terms of the run of the nested transform. -/
theorem invoke_pivot_unfold (E : Env F) (n : Nat) (source dest wgs : SR F) (x y : F)
    (hpivot : PivotCondition E source dest) (hp : E.Parse "WGS84" = .ok wgs) :
    invoke E (n + 1) ⟨source, dest⟩ x y
      = match (invoke E n ⟨source, wgs⟩ x y).1.outcome with
        | .outOfFuel =>
          (⟨[.Parse "WGS84", .nested source wgs x y] ++ (invoke E n ⟨source, wgs⟩ x y).1.trace,
            .outOfFuel⟩, ⟨source, dest⟩)
        | .panic =>
          (⟨[.Parse "WGS84", .nested source wgs x y] ++ (invoke E n ⟨source, wgs⟩ x y).1.trace,
            .panic⟩, ⟨source, dest⟩)
        | .ret _ _ (some err) =>
          (⟨[.Parse "WGS84", .nested source wgs x y] ++ (invoke E n ⟨source, wgs⟩ x y).1.trace,
            .ret E.NaN E.NaN (some err)⟩, ⟨source, dest⟩)
        | .ret x1 y1 none =>
          (⟨[.Parse "WGS84", .nested source wgs x y] ++ (invoke E n ⟨source, wgs⟩ x y).1.trace
              ++ (remainder E wgs dest [x1, y1]).trace,
            (remainder E wgs dest [x1, y1]).outcome⟩, ⟨wgs, dest⟩) := by
  rw [← line17_iff] at hpivot
  simp only [invoke, hpivot, if_true, hp, NewTransformFunc]

/-- With a WGS84 descriptor that never satisfies line 17, an invocation that
takes the pivot is: `Parse`, the nested transform, which is lines 32-98 from the
source to WGS84, and then lines 32-98 from WGS84 to the destination. -/
theorem invoke_pivot_shape (E : Env F) (wgs : SR F) (hparse : E.Parse "WGS84" = .ok wgs)
    (hcode : wgs.DatumCode = "WGS84")
    (h3 : wgs.datum.datum_type ≠ E.pjd3Param) (h7 : wgs.datum.datum_type ≠ E.pjd7Param)
    (fuel : Nat) (source dest : SR F) (x y : F) (hpivot : PivotCondition E source dest) :
    (invoke E (fuel + 2) ⟨source, dest⟩ x y).1.outcome ≠ .outOfFuel
      ∧ ((invoke E (fuel + 2) ⟨source, dest⟩ x y).1.trace.filter Call.isNested).length = 1 := by
  have hnp : ¬ PivotCondition E source wgs := by
    rw [← line17_iff]
    simp [wgs84_never_pivots E wgs hcode h3 h7 source]
  have hr1 := remainder_not_outOfFuel E source wgs [x, y]
  rw [invoke_pivot_unfold E (fuel + 1) source dest wgs x y hpivot hparse,
    invoke_no_pivot E fuel source wgs x y hnp]
  simp only
  split
  · rename_i h
    exact absurd h hr1
  · simp [List.filter_append, remainder_no_nested, Call.isNested]
  · simp [List.filter_append, remainder_no_nested, Call.isNested]
  · refine ⟨remainder_not_outOfFuel E wgs dest _, ?_⟩
    simp [List.filter_append, remainder_no_nested, Call.isNested]

/-- C17: when `Parse("WGS84")` gives a descriptor with `DatumCode` `"WGS84"` and a
`datum_type` that is neither `pjd3Param` nor `pjd7Param`, line 17 is false in the
nested transform to that descriptor, so a recursion budget of two is enough for
every invocation: it ends, more budget does not change it, and it holds at most
one recursive call. -/
theorem pivot_recursion_depth_at_most_one (E : Env F) (wgs : SR F)
    (hparse : E.Parse "WGS84" = .ok wgs) (hcode : wgs.DatumCode = "WGS84")
    (h3 : wgs.datum.datum_type ≠ E.pjd3Param) (h7 : wgs.datum.datum_type ≠ E.pjd7Param)
    (fuel : Nat) (c : Closure F) (x y : F) :
    (∀ source, checkNotWGS E source wgs = false ∧ checkNotWGS E wgs source = false)
      ∧ (invoke E (fuel + 2) c x y).1.outcome ≠ .outOfFuel
      ∧ invoke E (fuel + 2) c x y = invoke E 2 c x y
      ∧ ((invoke E (fuel + 2) c x y).1.trace.filter Call.isNested).length ≤ 1 := by
  obtain ⟨source, dest⟩ := c
  have hnever := wgs84_never_pivots E wgs hcode h3 h7
  have hsame : invoke E (fuel + 2) ⟨source, dest⟩ x y = invoke E 2 ⟨source, dest⟩ x y := by
    apply invoke_succ_congr E (fuel + 1) 1
    intro w hw
    rw [hparse] at hw
    cases hw
    have hnp : ¬ PivotCondition E source wgs := by
      rw [← line17_iff]
      simp [hnever source]
    rw [invoke_no_pivot E fuel source wgs x y hnp, invoke_no_pivot E 0 source wgs x y hnp]
  refine ⟨hnever, ?_, hsame, ?_⟩
  · by_cases hpivot : PivotCondition E source dest
    · exact (invoke_pivot_shape E wgs hparse hcode h3 h7 fuel source dest x y hpivot).1
    · rw [invoke_no_pivot E (fuel + 1) source dest x y hpivot]
      exact remainder_not_outOfFuel E source dest _
  · by_cases hpivot : PivotCondition E source dest
    · exact le_of_eq (invoke_pivot_shape E wgs hparse hcode h3 h7 fuel source dest x y hpivot).2
    · rw [invoke_no_pivot E (fuel + 1) source dest x y hpivot]
      simp [remainder_no_nested]

/-! ## What the axis adjustment of the source returns -/

theorem destAxis_withSourceAxisReturn (E : Env F)
    (ret : SR F → List F → Except Err (List F)) (dest : SR F) (tr : List (Call F))
    (point : List F) :
    destAxis (withSourceAxisReturn E ret) dest tr point = destAxis E dest tr point := by
  simp [destAxis, withSourceAxisReturn]

theorem destStep_withSourceAxisReturn (E : Env F)
    (ret : SR F → List F → Except Err (List F)) (dest owner : SR F) (f : TransformFunc F)
    (tr : List (Call F)) (point : List F) :
    destStep (withSourceAxisReturn E ret) dest f owner tr point
      = destStep E dest f owner tr point := by
  simp only [destStep, destAxis_withSourceAxisReturn]
  rfl

theorem datumStep_withSourceAxisReturn (E : Env F)
    (ret : SR F → List F → Except Err (List F)) (source dest owner : SR F)
    (f : TransformFunc F) (tr : List (Call F)) (point : List F) :
    datumStep (withSourceAxisReturn E ret) source dest f owner tr point
      = datumStep E source dest f owner tr point := by
  simp only [datumStep, destStep_withSourceAxisReturn]
  rfl

theorem sourceStep_withSourceAxisReturn (E : Env F)
    (ret : SR F → List F → Except Err (List F)) (source dest : SR F)
    (inv fwd : TransformFunc F) (tr : List (Call F)) (point : List F) :
    sourceStep (withSourceAxisReturn E ret) source dest inv fwd tr point
      = sourceStep E source dest inv fwd tr point := by
  simp only [sourceStep, datumStep_withSourceAxisReturn]
  rfl

/-- Lines 32-98 do not depend on what `adjust_axis(source, false, point)` returns,
neither on the slice nor on the error. -/
theorem remainder_withSourceAxisReturn (E : Env F)
    (ret : SR F → List F → Except Err (List F)) (source dest : SR F) (point : List F) :
    remainder (withSourceAxisReturn E ret) source dest point = remainder E source dest point := by
  simp only [remainder, sourceStep_withSourceAxisReturn]
  rfl

/-- An invocation does not depend on what `adjust_axis(source, false, point)`
returns, neither on the slice nor on the error. -/
theorem invoke_withSourceAxisReturn (E : Env F)
    (ret : SR F → List F → Except Err (List F)) (fuel : Nat) (c : Closure F) (x y : F) :
    invoke (withSourceAxisReturn E ret) fuel c x y = invoke E fuel c x y := by
  induction fuel generalizing c x y with
  | zero => rfl
  | succ fuel ih =>
    simp only [invoke, ih, remainder_withSourceAxisReturn]
    rfl

end pipeline

section exact

variable {F : Type} [Field F]

/-- Over a field with `deg2rad * r2d = 1`: between two geographic spatial
references with axis `enu`, zero prime meridian, no pivot and the identity as
datum transform, the round trip of `(x, y)` is `(x * r2d * r2d,
y * deg2rad * deg2rad)`. -/
theorem roundTrip_geographic (E : Env F) (fuel : Nat) (A B : SR F) (x y : F)
    (fsA fsB : TransformFunc F × TransformFunc F)
    (hone : E.deg2rad * E.r2d = 1)
    (hA : A.Name = "longlat") (hAaxis : A.Axis = "enu") (hAzero : A.FromGreenwich = 0)
    (hB : B.Name = "longlat") (hBaxis : B.Axis = "enu") (hBzero : B.FromGreenwich = 0)
    (hAB : ¬ PivotCondition E A B) (hBA : ¬ PivotCondition E B A)
    (hfsA : E.TransformFuncs A = .ok fsA) (hfsB : E.TransformFuncs B = .ok fsB)
    (hdAB : ∀ u v, E.datumTransform A.datum B.datum u v 0 = .ok (u, v, 0))
    (hdBA : ∀ u v, E.datumTransform B.datum A.datum u v 0 = .ok (u, v, 0)) :
    roundTrip E (fuel + 1) A B x y
      = .ret (x * E.r2d * E.r2d) (y * E.deg2rad * E.deg2rad) none := by
  unfold roundTrip
  simp only [NewTransformFunc]
  rw [invoke_geographic E fuel A B x y _ _ _ fsA hA hAaxis hB hBaxis hAB hfsA (hdAB _ _)]
  simp only
  rw [invoke_geographic E fuel B A _ _ _ _ _ fsB hB hBaxis hA hAaxis hBA hfsB (hdBA _ _)]
  have h1 : ∀ u : F, u * E.deg2rad * E.r2d = u := by
    intro u
    rw [mul_assoc, hone, mul_one]
  have h2 : ∀ u : F, u * E.r2d * E.deg2rad = u := by
    intro u
    rw [mul_assoc, mul_comm E.r2d, hone, mul_one]
  simp only [hAzero, hBzero, add_zero, sub_zero, h1, h2]

end exact

/-! ## The code on concrete inputs -/

section evaluation

/-- C1, on the code: the first invocation of the transform from `eqcPotsdam 2` to
`nad83` takes the WGS84 pivot and leaves `wgs84` in the captured variable
`source`; the second invocation on the same point then runs as a transform from
`wgs84` and returns another result. -/
theorem second_invocation_differs_after_pivot :
    ((NewTransformFunc (eqcPotsdam 2) nad83).1).source = eqcPotsdam 2 ∧
      (invoke sampleEnv 2 (NewTransformFunc (eqcPotsdam 2) nad83).1 (.val 4) (.val 6)).2.source
        = wgs84 ∧
      (invoke sampleEnv 2 (NewTransformFunc (eqcPotsdam 2) nad83).1 (.val 4) (.val 6)).1.outcome
        = .ret (.val (500094000 / 1331)) (.val (11 / 210)) none ∧
      (invoke sampleEnv 2
          (invoke sampleEnv 2 (NewTransformFunc (eqcPotsdam 2) nad83).1 (.val 4) (.val 6)).2
          (.val 4) (.val 6)).1.outcome
        = .ret (.val (2520 / 11)) (.val (11 / 105)) none := by
  decide!

/-- C2, on the code: from `wgs84` to `eqc 3` the last call is the forward
function of the source `wgs84` (the identity), and its result is returned; the
forward function of the destination would give three times that. -/
theorem forward_function_is_taken_from_source :
    (invoke sampleEnv 1 (NewTransformFunc wgs84 (eqc 3)).1 (.val 4) (.val 6)).1.trace.getLast?
        = some (.forward wgs84 (.val (22 / 315)) (.val (11 / 105))) ∧
      (invoke sampleEnv 1 (NewTransformFunc wgs84 (eqc 3)).1 (.val 4) (.val 6)).1.outcome
        = .ret (.val (22 / 315)) (.val (11 / 105)) none ∧
      forwardOf sampleEnv (eqc 3) (.val (22 / 315)) (.val (11 / 105))
        = .ok (.val (22 / 105), .val (11 / 35)) := by
  decide!

/-- C3, on the code: from `wgs84` to `nad83` the point `(4, 6)` in degrees leaves
the datum transform as `(22/315, 11/105)` in radians; the returned longitude is
that longitude times `r2d` twice and the returned latitude is still in radians,
while one multiplication by `r2d` of each gives `(4, 6)`. -/
theorem longlat_destination_scales_longitude_twice_latitude_never :
    (invoke sampleEnv 1 (NewTransformFunc wgs84 nad83).1 (.val 4) (.val 6)).1
        = ⟨[.TransformFuncs wgs84, .TransformFuncs wgs84,
            .datumTransform wgs84.datum nad83.datum (.val (22 / 315)) (.val (11 / 105)) (.val 0)],
          .ret (.val (2520 / 11)) (.val (11 / 105)) none⟩ ∧
      XNum.val (22 / 315) * sampleEnv.r2d = .val 4 ∧
      XNum.val (11 / 105) * sampleEnv.r2d = .val 6 ∧
      XNum.val (22 / 315) * sampleEnv.r2d * sampleEnv.r2d = .val (2520 / 11) := by
  decide!

/-- C4, on the code: in the sample environment `deg2rad * r2d = 1`, both
`wgs84` and `nad83` are geographic with axis `enu` and zero prime meridian and
the datum transform is the identity, yet the round trip of `(4, 6)` is not
`(4, 6)`. -/
theorem roundTrip_geographic_is_not_identity :
    sampleEnv.deg2rad * sampleEnv.r2d = .val 1 ∧
      roundTrip sampleEnv 1 wgs84 nad83 (.val 4) (.val 6)
        = .ret (.val (1587600 / 121)) (.val (121 / 66150)) none ∧
      roundTrip sampleEnv 1 wgs84 nad83 (.val 4) (.val 6) ≠ .ret (.val 4) (.val 6) none := by
  decide!

/-- A run of C5: the transform from `krovak` to `nad83` takes the pivot, and the
pivot transform fails in `TransformFuncs`. -/
theorem invoke_error_is_NaN_with_originating_error_witness :
    XNum.nan = sampleEnv.NaN ∧ XNum.nan = sampleEnv.NaN ∧
      ∃ call, (invoke sampleEnv 2 ⟨krovak, nad83⟩ (.val 4) (.val 6)).1.trace.getLast? = some call
        ∧ FailsWith sampleEnv call "unknown projection: krovak" :=
  invoke_error_is_NaN_with_originating_error sampleEnv 2 ⟨krovak, nad83⟩ (.val 4) (.val 6)
    .nan .nan "unknown projection: krovak" (by decide!)

/-- A run of C12: the transform from `eqcPotsdam 2` to `nad83` takes the pivot; the
pivot transform returns `(793800/121, 3)`, and the invocation is `Parse`, the
nested transform and lines 32-98 from `wgs84` to `nad83` on that point. -/
theorem pivot_result_is_remainder_from_wgs84_witness :
    PivotCondition sampleEnv (eqcPotsdam 2) nad83
      ∧ invoke sampleEnv 2 ⟨eqcPotsdam 2, nad83⟩ (.val 4) (.val 6)
        = (⟨[.Parse "WGS84", .nested (eqcPotsdam 2) wgs84 (.val 4) (.val 6)]
              ++ (invoke sampleEnv 1 (NewTransformFunc (eqcPotsdam 2) wgs84).1
                  (.val 4) (.val 6)).1.trace
              ++ (remainder sampleEnv wgs84 nad83 [.val (793800 / 121), .val 3]).trace,
            (remainder sampleEnv wgs84 nad83 [.val (793800 / 121), .val 3]).outcome⟩,
          ⟨wgs84, nad83⟩) :=
  ⟨by decide,
    (pivot_result_is_remainder_from_wgs84 sampleEnv 1 (eqcPotsdam 2) nad83 (.val 4) (.val 6)
      (by decide)).2.2 wgs84 (.val (793800 / 121)) (.val 3) (by decide) (by decide!)⟩

/-- C16, on the code: the axis adjustment of the source `wgs84xyz` fails, and the
transform to `nad83` returns coordinates with a nil error all the same, while
the failing axis adjustment of the destination `nad83xyz` is returned. -/
theorem source_axis_error_is_dropped :
    (sampleEnv.adjust_axis wgs84xyz false [.val 4, .val 6]).ret = .error "unknown axis: xyz"
      ∧ (invoke sampleEnv 1 (NewTransformFunc wgs84xyz nad83).1 (.val 4) (.val 6)).1
        = ⟨[.TransformFuncs wgs84xyz, .TransformFuncs wgs84xyz,
            .adjust_axis wgs84xyz false [.val 4, .val 6],
            .datumTransform wgs84xyz.datum nad83.datum (.val (22 / 315)) (.val (11 / 105))
              (.val 0)],
          .ret (.val (2520 / 11)) (.val (11 / 105)) none⟩
      ∧ (invoke sampleEnv 1 (NewTransformFunc wgs84 nad83xyz).1 (.val 4) (.val 6)).1.outcome
        = .ret .nan .nan (some "unknown axis: xyz") := by
  decide!

/-- A run of C17 in the sample environment, on the transform from `eqcPotsdam 2`
to `nad83`, which takes the pivot. -/
theorem pivot_recursion_depth_at_most_one_witness :
    sampleEnv.Parse "WGS84" = .ok wgs84 ∧ wgs84.DatumCode = "WGS84"
      ∧ wgs84.datum.datum_type ≠ sampleEnv.pjd3Param
      ∧ wgs84.datum.datum_type ≠ sampleEnv.pjd7Param
      ∧ (∀ source, checkNotWGS sampleEnv source wgs84 = false
          ∧ checkNotWGS sampleEnv wgs84 source = false)
      ∧ (invoke sampleEnv (3 + 2) ⟨eqcPotsdam 2, nad83⟩ (.val 4) (.val 6)).1.outcome
        ≠ .outOfFuel
      ∧ invoke sampleEnv (3 + 2) ⟨eqcPotsdam 2, nad83⟩ (.val 4) (.val 6)
        = invoke sampleEnv 2 ⟨eqcPotsdam 2, nad83⟩ (.val 4) (.val 6)
      ∧ ((invoke sampleEnv (3 + 2) ⟨eqcPotsdam 2, nad83⟩ (.val 4) (.val 6)).1.trace.filter
          Call.isNested).length ≤ 1 :=
  ⟨by decide, by decide, by decide, by decide,
    pivot_recursion_depth_at_most_one sampleEnv wgs84 (by decide) (by decide) (by decide)
      (by decide) 3 ⟨eqcPotsdam 2, nad83⟩ (.val 4) (.val 6)⟩

end evaluation

end proj

/-! # Theorems about `MultiPoint` -/

namespace geom

section multipoint

variable {F Polygonal : Type}

theorem Within_eq_all (pointInPolygonal : Point F → Polygonal → Bool) (mp : MultiPoint F)
    (poly : Polygonal) :
    MultiPoint.Within pointInPolygonal mp poly = mp.all (fun p => pointInPolygonal p poly) := by
  induction mp with
  | nil => rfl
  | cons p rest ih =>
    simp only [MultiPoint.Within, List.all_cons, ih]
    cases pointInPolygonal p poly <;> simp

theorem boundsLoop_eq_foldl (extendPoint : Bounds F → Point F → Bounds F) (b : Bounds F)
    (mp : List (Point F)) :
    MultiPoint.boundsLoop extendPoint b mp = mp.foldl extendPoint b := by
  induction mp generalizing b with
  | nil => rfl
  | cons p rest ih => simp only [MultiPoint.boundsLoop, List.foldl_cons, ih]

/-- The loop with the modelled `extendPoint` only widens the bounds it starts
from, and the result contains every point it has visited. -/
theorem boundsLoop_extendPoint [LinearOrder F] (b : Bounds F) (mp : List (Point F)) :
    ((MultiPoint.boundsLoop extendPoint b mp).Min.X ≤ b.Min.X
        ∧ (MultiPoint.boundsLoop extendPoint b mp).Min.Y ≤ b.Min.Y
        ∧ b.Max.X ≤ (MultiPoint.boundsLoop extendPoint b mp).Max.X
        ∧ b.Max.Y ≤ (MultiPoint.boundsLoop extendPoint b mp).Max.Y)
      ∧ ∀ p ∈ mp,
        (MultiPoint.boundsLoop extendPoint b mp).Min.X ≤ p.X
          ∧ p.X ≤ (MultiPoint.boundsLoop extendPoint b mp).Max.X
          ∧ (MultiPoint.boundsLoop extendPoint b mp).Min.Y ≤ p.Y
          ∧ p.Y ≤ (MultiPoint.boundsLoop extendPoint b mp).Max.Y := by
  induction mp generalizing b with
  | nil => simp [MultiPoint.boundsLoop]
  | cons q rest ih =>
    obtain ⟨⟨h1, h2, h3, h4⟩, hmem⟩ := ih (extendPoint b q)
    simp only [MultiPoint.boundsLoop]
    simp only [extendPoint] at h1 h2 h3 h4
    refine ⟨⟨le_trans h1 (min_le_left _ _), le_trans h2 (min_le_left _ _),
      le_trans (le_max_left _ _) h3, le_trans (le_max_left _ _) h4⟩, ?_⟩
    intro p hp
    rcases List.mem_cons.mp hp with rfl | hp
    · exact ⟨le_trans h1 (min_le_right _ _), le_trans (le_max_right _ _) h3,
        le_trans h2 (min_le_right _ _), le_trans (le_max_right _ _) h4⟩
    · exact hmem p hp

/-- C7: `Within` returns true exactly when `pointInPolygonal` holds for every
point of the MultiPoint; it returns true for the empty MultiPoint, and false
whenever some point is outside `poly`, whatever follows that point. -/
theorem Within_iff_every_point_inside (pointInPolygonal : Point F → Polygonal → Bool)
    (mp : MultiPoint F) (poly : Polygonal) :
    (MultiPoint.Within pointInPolygonal mp poly = true
        ↔ ∀ p ∈ mp, pointInPolygonal p poly = true)
      ∧ MultiPoint.Within pointInPolygonal [] poly = true
      ∧ ∀ (before after : List (Point F)) (p : Point F), pointInPolygonal p poly = false →
          MultiPoint.Within pointInPolygonal (before ++ p :: after) poly = false := by
  refine ⟨?_, rfl, ?_⟩
  · rw [Within_eq_all, List.all_eq_true]
  · intro before after p hp
    rw [Within_eq_all, List.all_eq_false]
    exact ⟨p, by simp, by simp [hp]⟩

end multipoint

section float

variable {R : Type}

theorem Float64.not_le_NaN [LE R] (a : Float64 R) : ¬ a ≤ Float64.NaN := by
  intro h
  cases a <;> exact h

theorem Float64.num_le_num [LE R] (a b : R) : Float64.num a ≤ Float64.num b ↔ a ≤ b :=
  Iff.rfl

theorem Point.point_eq_toFloat64_of_isNumber (p : Point (Float64 R)) (h : p.isNumber = true) :
    ∃ q : Point R, p = q.toFloat64 := by
  obtain ⟨x, y⟩ := p
  cases x <;> cases y <;> simp [Point.isNumber, Float64.isNumber] at h
  exact ⟨⟨_, _⟩, rfl⟩

theorem Bounds.bounds_eq_toFloat64_of_isNumber (b : Bounds (Float64 R)) (h : b.isNumber = true) :
    ∃ c : Bounds R, b = c.toFloat64 := by
  obtain ⟨lo, hi⟩ := b
  simp only [Bounds.isNumber, Bool.and_eq_true] at h
  obtain ⟨qlo, rfl⟩ := Point.point_eq_toFloat64_of_isNumber lo h.1
  obtain ⟨qhi, rfl⟩ := Point.point_eq_toFloat64_of_isNumber hi h.2
  exact ⟨⟨qlo, qhi⟩, rfl⟩

theorem MultiPoint.eq_map_toFloat64 (mp : MultiPoint (Float64 R))
    (h : ∀ p ∈ mp, p.isNumber = true) : ∃ qs : List (Point R), mp = qs.map Point.toFloat64 := by
  induction mp with
  | nil => exact ⟨[], rfl⟩
  | cons p rest ih =>
    obtain ⟨qs, hqs⟩ := ih (fun q hq => h q (List.mem_cons_of_mem _ hq))
    obtain ⟨q, hq⟩ := Point.point_eq_toFloat64_of_isNumber p (h p (List.mem_cons_self _ _))
    exact ⟨q :: qs, by simp [hq, hqs]⟩

/-- On numbers, the loop over `float64` coordinates is the loop over the
numbers. -/
theorem boundsLoop_toFloat64 [Min R] [Max R]
    (extend : Bounds (Float64 R) → Point (Float64 R) → Bounds (Float64 R))
    (hext : TakesMinMax extend) (b : Bounds R) (qs : List (Point R)) :
    MultiPoint.boundsLoop extend b.toFloat64 (qs.map Point.toFloat64)
      = (MultiPoint.boundsLoop extendPoint b qs).toFloat64 := by
  induction qs generalizing b with
  | nil => rfl
  | cons q rest ih =>
    simp only [List.map_cons, MultiPoint.boundsLoop, hext b q, ih]

theorem extendPointNaN_takesMinMax [Min R] [Max R] :
    TakesMinMax (extendPointNaN : Bounds (Float64 R) → Point (Float64 R) → Bounds (Float64 R)) :=
  fun _ _ => rfl

/-- With an `extendPoint` that takes the coordinate-wise minimum and maximum,
fresh bounds and points whose coordinates are all numbers, every point lies
between `Min` and `Max` of the bounds of the MultiPoint. -/
theorem Bounds_contains_numbers [LinearOrder R] (NewBounds : Bounds (Float64 R))
    (extend : Bounds (Float64 R) → Point (Float64 R) → Bounds (Float64 R))
    (mp : MultiPoint (Float64 R)) (hext : TakesMinMax extend)
    (hnew : NewBounds.isNumber = true) (hmp : ∀ p ∈ mp, p.isNumber = true) :
    ∀ p ∈ mp,
      (MultiPoint.Bounds NewBounds extend mp).Min.X ≤ p.X
        ∧ p.X ≤ (MultiPoint.Bounds NewBounds extend mp).Max.X
        ∧ (MultiPoint.Bounds NewBounds extend mp).Min.Y ≤ p.Y
        ∧ p.Y ≤ (MultiPoint.Bounds NewBounds extend mp).Max.Y := by
  obtain ⟨b, rfl⟩ := Bounds.bounds_eq_toFloat64_of_isNumber NewBounds hnew
  obtain ⟨qs, rfl⟩ := MultiPoint.eq_map_toFloat64 mp hmp
  intro p hp
  obtain ⟨q, hq, rfl⟩ := List.mem_map.mp hp
  have h := (boundsLoop_extendPoint b qs).2 q hq
  simp only [MultiPoint.Bounds, boundsLoop_toFloat64 extend hext b qs]
  exact h

/-- C8, as stated, fails: a point with a NaN coordinate does not lie between
`Min` and `Max`, whatever the fresh bounds are and whatever `extendPoint` does,
because a comparison with NaN is false. -/
theorem Bounds_does_not_contain_NaN_point :
    (⟨.NaN, .num 0⟩ : Point (Float64 Int)) ∈ nanPoints
      ∧ ∀ (NewBounds : Bounds (Float64 Int))
          (extend : Bounds (Float64 Int) → Point (Float64 Int) → Bounds (Float64 Int)),
          ¬ ((MultiPoint.Bounds NewBounds extend nanPoints).Min.X
              ≤ (⟨.NaN, .num 0⟩ : Point (Float64 Int)).X) :=
  ⟨List.mem_singleton.mpr rfl, fun _ _ => Float64.not_le_NaN _⟩

/-- C8, amended: `Bounds` is the fresh `NewBounds()` extended by every point in
order, and the fresh bounds for the empty MultiPoint; with `extendPoint` taking
the coordinate-wise minimum and maximum, every point of the MultiPoint lies
between `Min` and `Max` in both coordinates when no coordinate of the fresh
bounds or of a point of the MultiPoint is NaN. -/
theorem Bounds_is_extents_of_points_without_NaN [LinearOrder R]
    (NewBounds : Bounds (Float64 R))
    (extend : Bounds (Float64 R) → Point (Float64 R) → Bounds (Float64 R))
    (mp : MultiPoint (Float64 R)) :
    MultiPoint.Bounds NewBounds extend mp = mp.foldl extend NewBounds
      ∧ MultiPoint.Bounds NewBounds extend [] = NewBounds
      ∧ (TakesMinMax extend → NewBounds.isNumber = true → (∀ p ∈ mp, p.isNumber = true) →
          ∀ p ∈ mp,
            (MultiPoint.Bounds NewBounds extend mp).Min.X ≤ p.X
              ∧ p.X ≤ (MultiPoint.Bounds NewBounds extend mp).Max.X
              ∧ (MultiPoint.Bounds NewBounds extend mp).Min.Y ≤ p.Y
              ∧ p.Y ≤ (MultiPoint.Bounds NewBounds extend mp).Max.Y) :=
  ⟨boundsLoop_eq_foldl extend NewBounds mp, rfl,
    fun hext hnew hmp => Bounds_contains_numbers NewBounds extend mp hext hnew hmp⟩

/-- A run of C8 on three points: the bounds are the box from (-5, -2) to (3, 7)
and each of the three points lies in it. -/
theorem Bounds_is_extents_of_points_without_NaN_witness :
    MultiPoint.Bounds emptyBounds extendPointNaN threePoints
        = ⟨⟨.num (-5), .num (-2)⟩, ⟨.num 3, .num 7⟩⟩
      ∧ ∀ p ∈ threePoints,
        (MultiPoint.Bounds emptyBounds extendPointNaN threePoints).Min.X ≤ p.X
          ∧ p.X ≤ (MultiPoint.Bounds emptyBounds extendPointNaN threePoints).Max.X
          ∧ (MultiPoint.Bounds emptyBounds extendPointNaN threePoints).Min.Y ≤ p.Y
          ∧ p.Y ≤ (MultiPoint.Bounds emptyBounds extendPointNaN threePoints).Max.Y :=
  ⟨by decide,
    (Bounds_is_extents_of_points_without_NaN emptyBounds extendPointNaN threePoints).2.2
      extendPointNaN_takesMinMax (by decide) (by decide)⟩

end float


end geom

/-! # Theorems about the tag statistics -/

namespace osm

theorem tableLoop_eq (rows : List (List String)) (tags : List TagCount) :
    Tags.tableLoop rows tags = rows ++ tags.map TagCount.row := by
  induction tags generalizing rows with
  | nil => simp [Tags.tableLoop]
  | cons t rest ih => simp [Tags.tableLoop, ih]

theorem filterLoop_eq (pred : TagCount → Bool) (out tags : List TagCount) :
    Tags.filterLoop pred out tags = out ++ tags.filter pred := by
  induction tags generalizing out with
  | nil => simp [Tags.filterLoop]
  | cons t rest ih =>
    cases h : pred t <;> simp [Tags.filterLoop, ih, h, List.filter_cons]

/-- The rule of the specification admits one answer for the tested TagCount, and
it is not `ClosedWay`: a function that always returns a kind with the largest
bucket count returns `OpenWay` for the counts (0, 55, 6784, 0). -/
theorem largest_bucket_of_tested_is_OpenWay (f : TagCount → ObjectType)
    (hf : ∀ (t : TagCount) (k : ObjectType), t.ObjectCount k ≤ t.ObjectCount (f t)) :
    f highwayResidential = ObjectType.OpenWay := by
  have h := hf highwayResidential ObjectType.OpenWay
  cases hk : f highwayResidential <;> rw [hk] at h <;>
    simp [TagCount.ObjectCount, highwayResidential] at h ⊢

/-- C10: `Table` is the header row followed by one row per TagCount in
collection order, each row the key, the value, the total and the four bucket
counts in decimal; `Filter` returns the elements that satisfy the predicate in
their original relative order; on the tested row the table is `tableWant`. -/
theorem Table_rows_and_Filter_subset (tags : Tags) (pred : TagCount → Bool) :
    Tags.Table tags
        = ["Key", "Value", "Total", "Node", "Closed way", "Open way", "Relation"]
          :: tags.map (fun t =>
            [t.Key, t.Value, Nat.repr (t.Node + t.ClosedWay + t.OpenWay + t.Relation),
              Nat.repr t.Node, Nat.repr t.ClosedWay, Nat.repr t.OpenWay, Nat.repr t.Relation])
      ∧ (Tags.Table tags).length = tags.length + 1
      ∧ Tags.Filter tags pred = tags.filter pred
      ∧ (Tags.Filter tags pred).Sublist tags
      ∧ (∀ t, t ∈ Tags.Filter tags pred ↔ t ∈ tags ∧ pred t = true)
      ∧ Tags.Table [highwayResidential] = tableWant := by
  have hT : Tags.Table tags = tableHeader :: tags.map TagCount.row := by
    simp [Tags.Table, tableLoop_eq]
  have hF : Tags.Filter tags pred = tags.filter pred := by
    simp [Tags.Filter, filterLoop_eq]
  refine ⟨hT, ?_, hF, ?_, ?_, by decide⟩
  · simp [hT]
  · rw [hF]
    exact List.filter_sublist tags
  · intro t
    rw [hF, List.mem_filter]

/-! ## Geometry assembly of ways -/

section assembler

variable {F : Type}

theorem resolveRefs_of_all_resolve (nodes : List (Node F)) (ids : List Int)
    (hres : ∀ id ∈ ids, (coordinate nodes id).isSome = true) :
    ∃ points, resolveRefs nodes ids = some points
      ∧ points.map some = ids.map (coordinate nodes) := by
  induction ids with
  | nil => exact ⟨[], rfl, rfl⟩
  | cons id rest ih =>
    obtain ⟨points, hpoints, hmap⟩ := ih (fun i hi => hres i (List.mem_cons_of_mem _ hi))
    have hid := hres id (List.mem_cons_self _ _)
    cases hc : coordinate nodes id with
    | none => simp [hc] at hid
    | some p =>
      refine ⟨p :: points, ?_, ?_⟩
      · simp [resolveRefs, hc, hpoints]
      · simp [hc, hmap]

theorem assembleWays_fst (nodes : List (Node F)) (key value : String) (ways : List Way) :
    (assembleWays nodes key value ways).1
      = (ways.filter (fun w => hasTag w.Tags key value)).filterMap (assembleWay nodes) := by
  induction ways with
  | nil => rfl
  | cons w rest ih =>
    cases htag : hasTag w.Tags key value
    · simp [assembleWays, htag, ih]
    · cases hw : assembleWay nodes w <;>
        simp [assembleWays, htag, hw, ih, List.filterMap_cons]

theorem ends_of_resolved (ids : List Int) (points : List (geom.Point F))
    (f : Int → Option (geom.Point F)) (hmap : points.map some = ids.map f)
    (hends : ids.head? = ids.getLast?) : points.head? = points.getLast? := by
  have h1 : (points.map some).head? = (points.map some).getLast? := by
    rw [hmap, List.head?_map, List.getLast?_map, hends]
  rw [List.head?_map, List.getLast?_map] at h1
  cases hh : points.head? <;> cases hl : points.getLast? <;> simp [hh, hl] at h1 ⊢
  exact h1

/-- C11: a way that matches the tag predicate, whose node references all
resolve and that has the two or more references of the data model, resolves to
the coordinates of its references in order; when its first and last node ids
are equal the assembler emits a polygon with that single ring, which starts and
ends at the same coordinate, otherwise a line string; the geometry is paired
with the tag map of the way and is part of the output of the pass. -/
theorem way_resolves_to_polygon_or_linestring (nodes : List (Node F)) (ways : List Way)
    (w : Way) (key value : String) (hw : w ∈ ways) (htag : hasTag w.Tags key value = true)
    (hres : ∀ id ∈ w.NodeIDs, (coordinate nodes id).isSome = true)
    (hlen : 2 ≤ w.NodeIDs.length) :
    ∃ points : List (geom.Point F),
      points.map some = w.NodeIDs.map (coordinate nodes)
        ∧ (w.NodeIDs.head? = w.NodeIDs.getLast? →
            assembleWay nodes w = some ⟨.Polygon [points], w.Tags⟩
              ∧ points.head? = points.getLast?)
        ∧ (w.NodeIDs.head? ≠ w.NodeIDs.getLast? →
            assembleWay nodes w = some ⟨.LineString points, w.Tags⟩)
        ∧ ∃ g, assembleWay nodes w = some g ∧ g.Tags = w.Tags
            ∧ g ∈ (assembleWays nodes key value ways).1 := by
  obtain ⟨points, hpoints, hmap⟩ := resolveRefs_of_all_resolve nodes w.NodeIDs hres
  have hlen2 : ¬ points.length < 2 := by
    have h := congrArg List.length hmap
    simp only [List.length_map] at h
    omega
  obtain ⟨first, hfirst⟩ : ∃ a, w.NodeIDs.head? = some a := by
    cases h : w.NodeIDs with
    | nil => simp [h] at hlen
    | cons a rest => exact ⟨a, rfl⟩
  obtain ⟨last, hlast⟩ : ∃ a, w.NodeIDs.getLast? = some a := by
    cases h : w.NodeIDs.getLast? with
    | none =>
      rw [List.getLast?_eq_none_iff] at h
      simp [h] at hlen
    | some a => exact ⟨a, rfl⟩
  have hclosed : w.isClosed = true ↔ w.NodeIDs.head? = w.NodeIDs.getLast? := by
    simp [Way.isClosed, hfirst, hlast]
  have hpoly : w.NodeIDs.head? = w.NodeIDs.getLast? →
      assembleWay nodes w = some ⟨.Polygon [points], w.Tags⟩ := by
    intro h
    simp [assembleWay, hpoints, hlen2, hclosed.mpr h]
  have hline : w.NodeIDs.head? ≠ w.NodeIDs.getLast? →
      assembleWay nodes w = some ⟨.LineString points, w.Tags⟩ := by
    intro h
    have hc : w.isClosed = false := by
      cases hb : w.isClosed
      · rfl
      · exact absurd (hclosed.mp hb) h
    simp [assembleWay, hpoints, hlen2, hc]
  refine ⟨points, hmap, fun h => ⟨hpoly h, ends_of_resolved _ _ _ hmap h⟩, hline, ?_⟩
  have hmem : ∀ g, assembleWay nodes w = some g →
      g ∈ (assembleWays nodes key value ways).1 := by
    intro g hg
    rw [assembleWays_fst, List.mem_filterMap]
    exact ⟨w, List.mem_filter.mpr ⟨hw, by simpa using htag⟩, hg⟩
  by_cases h : w.NodeIDs.head? = w.NodeIDs.getLast?
  · exact ⟨_, hpoly h, rfl, hmem _ (hpoly h)⟩
  · exact ⟨_, hline h, rfl, hmem _ (hline h)⟩

/-- A run of C11 on the open way of `TestExtractTag_Line`, in a pass that also
holds a way with a dangling reference and a closed way. -/
theorem way_resolves_to_polygon_or_linestring_witness :
    ∃ points : List (geom.Point Int),
      points.map some = trailWay.NodeIDs.map (coordinate trailNodes)
        ∧ (trailWay.NodeIDs.head? = trailWay.NodeIDs.getLast? →
            assembleWay trailNodes trailWay = some ⟨.Polygon [points], trailWay.Tags⟩
              ∧ points.head? = points.getLast?)
        ∧ (trailWay.NodeIDs.head? ≠ trailWay.NodeIDs.getLast? →
            assembleWay trailNodes trailWay = some ⟨.LineString points, trailWay.Tags⟩)
        ∧ ∃ g, assembleWay trailNodes trailWay = some g ∧ g.Tags = trailWay.Tags
            ∧ g ∈ (assembleWays trailNodes "trail_visibility" "bad"
                [danglingWay, trailWay, loopWay]).1 :=
  way_resolves_to_polygon_or_linestring trailNodes [danglingWay, trailWay, loopWay] trailWay
    "trail_visibility" "bad" (by decide) (by decide) (by decide) (by decide)

/-- The pass over a way with a dangling reference, the open way of
`TestExtractTag_Line` and a closed way: a line string with the two vertices and
the four tags, a polygon whose ring ends where it starts, one way skipped. -/
theorem assembleWays_on_trail :
    assembleWays trailNodes "trail_visibility" "bad" [danglingWay, trailWay, loopWay]
      = ([⟨.LineString [⟨-1578260688, 214041860⟩, ⟨-1578258194, 214036865⟩],
            [("highway", "path"), ("surface", "dirt"), ("trail_visibility", "bad"),
              ("access", "private")]⟩,
          ⟨.Polygon [[⟨-1578260688, 214041860⟩, ⟨-1578258194, 214036865⟩,
              ⟨-1578260688, 214041860⟩]], [("trail_visibility", "bad")]⟩], 1) := by
  decide

end assembler

end osm
